import Mathlib

/-!
Verification of the Obfuscratchor rename-and-rewrite engine.

The Python sources (`obfuscratchor.py`, version 2.5, and the older
`Obfuscratchor.py`, version 0.1.0) are shallowly embedded below.  Python
dictionaries become association lists, in-place mutation becomes explicit
state passing, and fallible operations return `Except PyErr`.  Randomness
(`secrets.token_hex`, `random.choice`) is modelled by explicit entropy
streams (`Nat → Nat`) or abstract name supplies (`Nat → String`) that the
theorems quantify over.  The regular expression `\d` is modelled over the
Unicode decimal digits (the general category `Nd`, embedded as its
code-point range table), as Python's `re` matches it on `str` patterns.
-/

namespace Obf

/-- Python values as they occur in the options records and in the
project-document tree: integers, strings, booleans, `None`, lists and
(for the top-level options record) dictionaries. -/
inductive PyVal where
  | vint : Int → PyVal
  | vstr : String → PyVal
  | vbool : Bool → PyVal
  | vnone : PyVal
  | vlist : List PyVal → PyVal
  | vdict : List (String × PyVal) → PyVal

/-- The Python exception kinds the embedded code can raise.
`optionError` is the library's own `OptionError`; the others are builtin
Python exceptions. -/
inductive PyErr where
  | optionError : String → PyErr
  | typeError : PyErr
  | keyError : String → PyErr
  | indexError : PyErr
  | valueError : PyErr
deriving Repr, DecidableEq

/-- An options record: a Python `dict` with string keys, modelled as an
association list in insertion order. -/
abbrev Options := List (String × PyVal)

/-- `d.pop(k, default)`: returns the value stored under `k` (if any) and
the dictionary with `k` removed, other entries kept in order. -/
def popKey (opts : Options) (k : String) : Option PyVal × Options :=
  match opts with
  | [] => (none, [])
  | (k', v) :: rest =>
    if k' = k then (some v, rest)
    else
      let r := popKey rest k
      (r.1, (k', v) :: r.2)

/-- `isinstance(v, int)` — Python `bool` is a subclass of `int`. -/
def isInstInt : PyVal → Bool
  | .vint _ => true
  | .vbool _ => true
  | _ => false

/-- The integer value of a Python `int` (or `bool`) value. -/
def pyToInt : PyVal → Int
  | .vint n => n
  | .vbool b => if b then 1 else 0
  | _ => 0

/-- Python `v == s` against a string literal. -/
def pyEqStr (v : PyVal) (s : String) : Bool :=
  match v with
  | .vstr t => t == s
  | _ => false

/-- Python `a > b`: numbers compare numerically, strings
lexicographically, and any comparison involving `None` (or mixed
incomparable types) raises `TypeError`. -/
def pyGt : PyVal → PyVal → Except PyErr Bool
  | .vint a, .vint b => .ok (b < a)
  | .vint a, .vbool b => .ok ((if b then (1 : Int) else 0) < a)
  | .vbool a, .vint b => .ok (b < (if a then (1 : Int) else 0))
  | .vbool a, .vbool b => .ok ((if b then (1 : Int) else 0) < (if a then (1 : Int) else 0))
  | .vstr a, .vstr b => .ok (decide (b < a))
  | _, _ => .error .typeError

/-- The resolved name-generation strategy returned by
`parse_rename_options`: one of the two recognized generators bound to
its parameters, or (for any other strategy value) the original value
returned unchanged. -/
inductive Gen where
  | randomHex : Int → Gen
  | unicodeRange : Int → Int → Int → Gen
  | passthrough : PyVal → Gen

/-- `parse_rename_options(options, name_name)` from `obfuscratchor.py`
(lines 149-181).  Pops `rename_<name_name>_to` (sentinel `...` when
missing) and `<name_name[:-1]>_name_length` (default `10`), checks the
length is an `int`, checks the strategy key was present, and resolves
the strategy; for `random_unicode_char_range` it pops the bounds
(default `None`), compares them with Python `>` (which raises
`TypeError` on `None`), and then checks both are `int`s. -/
def parse_rename_options (options : Options) (name_name : String) :
    Except PyErr (Options × Gen) :=
  let p1 := popKey options ("rename_" ++ name_name ++ "_to")
  let p2 := popKey p1.2 (name_name.dropRight 1 ++ "_name_length")
  let var_name_len := p2.1.getD (.vint 10)
  if isInstInt var_name_len then
    match p1.1 with
    | none => .error (.optionError ("rename_" ++ name_name ++ "_to cannot be null."))
    | some v =>
      if pyEqStr v "random_hex" then
        .ok (p2.2, .randomHex (pyToInt var_name_len))
      else if pyEqStr v "random_unicode_char_range" then
        let p3 := popKey p2.2 "range_start"
        let p4 := popKey p3.2 "range_end"
        let range_start := p3.1.getD .vnone
        let range_end := p4.1.getD .vnone
        match pyGt range_start range_end with
        | .error e => .error e
        | .ok true => .error (.optionError "range_start must be less than range_end.")
        | .ok false =>
          if isInstInt range_start && isInstInt range_end then
            .ok (p4.2, .unicodeRange (pyToInt var_name_len) (pyToInt range_start)
              (pyToInt range_end))
          else .error (.optionError "range_start and range_end must be integers.")
      else .ok (p2.2, .passthrough v)
  else .error (.optionError (name_name ++ "_name_length must be an integer."))

/-- Calling the object returned by `parse_rename_options` once.  The two
strategy closures return a freshly generated string (abstracted as the
`i`-th element of the ambient name supply); calling any other returned
value raises `TypeError`, since no `PyVal` is callable. -/
def callGen (g : Gen) (sup : Nat → String) (i : Nat) : Except PyErr String :=
  match g with
  | .passthrough _ => .error .typeError
  | _ => .ok (sup i)

/-- One random byte rendered as two lowercase hexadecimal digits, as in
the output of `secrets.token_hex`. -/
def hexByte (b : Nat) : String :=
  String.mk [Nat.digitChar (b % 256 / 16), Nat.digitChar (b % 16)]

/-- `secrets.token_hex(n)`: `n` random bytes (drawn from the entropy
stream `bytes`), each rendered as two hexadecimal digits — so the
resulting string has `2 * n` characters. -/
def token_hex : Nat → (Nat → Nat) → String
  | 0, _ => ""
  | n + 1, bytes => hexByte (bytes 0) ++ token_hex n (fun i => bytes (i + 1))

/-- The closure `lambda: secrets.token_hex(var_name_len)` called once:
a negative byte count makes `os.urandom` raise `ValueError`. -/
def callHex (len : Int) (bytes : Nat → Nat) : Except PyErr String :=
  if len < 0 then .error .valueError else .ok (token_hex len.toNat bytes)

/-- Python `chr`: valid for code points `0 ≤ cp ≤ 0x10FFFF` (lone
surrogates included), `ValueError` otherwise. -/
def pyChr (cp : Int) : Except PyErr Nat :=
  if 0 ≤ cp ∧ cp ≤ 0x10FFFF then .ok cp.toNat else .error .valueError

/-- The body of the `random_unicode_char_range` closure: `n` characters,
each `chr(random.choice(list(range(start, end + 1))))`.  The stream
`picks` supplies the index `random.choice` selects (reduced modulo the
range size); an empty range makes `random.choice` raise `IndexError`.
The produced Python string is represented by its code-point list, since
Python strings may hold lone surrogates that Lean `Char` cannot. -/
def unicodeChars : Nat → Int → Int → (Nat → Nat) → Except PyErr (List Nat)
  | 0, _, _, _ => .ok []
  | n + 1, s, e, picks =>
    let size := (e + 1 - s).toNat
    if size = 0 then .error .indexError
    else do
      let c ← pyChr (s + (picks 0 % size : Nat))
      let rest ← unicodeChars n s e (fun i => picks (i + 1))
      .ok (c :: rest)

/-- The `random_unicode_char_range` closure called once:
`''.join(... for _ in range(var_name_len))` (an empty join for a
non-positive length). -/
def unicodeName (len s e : Int) (picks : Nat → Nat) : Except PyErr (List Nat) :=
  unicodeChars len.toNat s e picks

/-- A hexadecimal digit as produced by `hex`/`token_hex`. -/
def isHexChar (c : Char) : Bool :=
  c.isDigit || ('a' ≤ c && c ≤ 'f')

/-- Python truthiness, as used by `if options.pop(..., True):`. -/
def pyTruthy : PyVal → Bool
  | .vint n => n != 0
  | .vstr s => s != ""
  | .vbool b => b
  | .vnone => false
  | .vlist l => !l.isEmpty
  | .vdict d => !d.isEmpty

/-- Dictionary lookup (`d[k]` / `k in d`) on an association list. -/
def alookup {α : Type} : List (String × α) → String → Option α
  | [], _ => none
  | (k, v) :: rest, key => if k = key then some v else alookup rest key

/-- Dictionary assignment `d[k] = v`: replaces in place when the key
exists, appends otherwise (Python dict insertion-order semantics). -/
def dinsert {α : Type} : List (String × α) → String → α → List (String × α)
  | [], k, v => [(k, v)]
  | (k', v') :: rest, k, v =>
    if k' = k then (k', v) :: rest else (k', v') :: dinsert rest k v

/-- List item assignment `l[i] = a`, raising `IndexError` out of range. -/
def setIdx {α : Type} (l : List α) (i : Nat) (a : α) : Except PyErr (List α) :=
  if i < l.length then .ok (l.set i a) else .error .indexError

/-- A costume or sound record: a dict whose `name` entry is the display
name; the remaining entries (`assetId`, `md5ext`, …) are untouched by
every pass and kept abstract. -/
structure Asset where
  name : String
  assetData : PyVal

/-- The `mutation` record of a procedure prototype or call block: its
`proccode` plus the untouched remaining entries. -/
structure Mutation where
  proccode : String
  mutationRest : PyVal

/-- One entry of a target's `blocks` dict: opcode, named fields (each a
list whose element `0` is the referenced literal), named inputs (each a
wrapped value), and an optional `mutation` record. -/
structure Block where
  opcode : String
  fields : List (String × List PyVal)
  inputs : List (String × PyVal)
  mutation : Option Mutation

/-- One target (the stage at index `0`, sprites after it). -/
structure Target where
  name : String
  /-- the `variables` dict (`variables` is a reserved word in Lean) -/
  vars : List (String × List PyVal)
  lists : List (String × List PyVal)
  costumes : List Asset
  sounds : List Asset
  blocks : List (String × Block)

/-- The inner loops of `rename_variables`/`rename_lists`: each entry's
element `0` is overwritten with a fresh generator call (`ctr` counts the
calls made so far). -/
def renameEntries (g : Gen) (sup : Nat → String) :
    Nat → List (String × List PyVal) → Except PyErr (Nat × List (String × List PyVal))
  | ctr, [] => .ok (ctr, [])
  | ctr, (k, v) :: rest => do
    let nm ← callGen g sup ctr
    let v' ← setIdx v 0 (.vstr nm)
    let r ← renameEntries g sup (ctr + 1) rest
    .ok (r.1, (k, v') :: r.2)

/-- `renameEntries` applied to one entity collection of every target in
a list, threading the generator-call counter. -/
def renameEntriesTargets (g : Gen) (sup : Nat → String)
    (get : Target → List (String × List PyVal))
    (set : Target → List (String × List PyVal) → Target) :
    Nat → List Target → Except PyErr (Nat × List Target)
  | ctr, [] => .ok (ctr, [])
  | ctr, t :: ts => do
    let r ← renameEntries g sup ctr (get t)
    let r2 ← renameEntriesTargets g sup get set r.1 ts
    .ok (r2.1, set t r.2 :: r2.2)

/-- `rename_variables` from `obfuscratchor.py` (lines 184-206): resolve
the generator, then (gated by `rename_public_variables`, default true)
rename the stage's variables, then (gated by `rename_private_variables`)
rename each sprite's own variables. -/
def rename_variables (targets : List Target) (options : Options) (sup : Nat → String) :
    Except PyErr (List Target) := do
  let (o1, g) ← parse_rename_options options "variables"
  let ppub := popKey o1 "rename_public_variables"
  let r1 ←
    if pyTruthy (ppub.1.getD (.vbool true)) then
      match targets with
      | [] => .error .indexError
      | t0 :: rest => do
        let r ← renameEntries g sup 0 t0.vars
        pure (r.1, { t0 with vars := r.2 } :: rest)
    else pure (0, targets)
  let ppriv := popKey ppub.2 "rename_private_variables"
  if pyTruthy (ppriv.1.getD (.vbool true)) then
    match r1.2 with
    | [] => pure []
    | t0 :: rest => do
      let r ← renameEntriesTargets g sup (fun t => t.vars)
        (fun t es => { t with vars := es }) r1.1 rest
      pure (t0 :: r.2)
  else pure r1.2

/-- `rename_lists` from `obfuscratchor.py` (lines 209-231): same shape
as `rename_variables`, over the `lists` collections. -/
def rename_lists (targets : List Target) (options : Options) (sup : Nat → String) :
    Except PyErr (List Target) := do
  let (o1, g) ← parse_rename_options options "lists"
  let ppub := popKey o1 "rename_public_lists"
  let r1 ←
    if pyTruthy (ppub.1.getD (.vbool true)) then
      match targets with
      | [] => .error .indexError
      | t0 :: rest => do
        let r ← renameEntries g sup 0 t0.lists
        pure (r.1, { t0 with lists := r.2 } :: rest)
    else pure (0, targets)
  let ppriv := popKey ppub.2 "rename_private_lists"
  if pyTruthy (ppriv.1.getD (.vbool true)) then
    match r1.2 with
    | [] => pure []
    | t0 :: rest => do
      let r ← renameEntriesTargets g sup (fun t => t.lists)
        (fun t es => { t with lists := es }) r1.1 rest
      pure (t0 :: r.2)
  else pure r1.2

/-- The inner loop of the costume/sound/backdrop passes: each asset's
display name is overwritten with a fresh generator call. -/
def renameAssets (g : Gen) (sup : Nat → String) :
    Nat → List Asset → Except PyErr (Nat × List Asset)
  | ctr, [] => .ok (ctr, [])
  | ctr, a :: rest => do
    let nm ← callGen g sup ctr
    let r ← renameAssets g sup (ctr + 1) rest
    .ok (r.1, { a with name := nm } :: r.2)

/-- `renameAssets` over one asset collection of every target in a list,
threading the generator-call counter. -/
def renameAssetsTargets (g : Gen) (sup : Nat → String)
    (get : Target → List Asset) (set : Target → List Asset → Target) :
    Nat → List Target → Except PyErr (Nat × List Target)
  | ctr, [] => .ok (ctr, [])
  | ctr, t :: ts => do
    let r ← renameAssets g sup ctr (get t)
    let r2 ← renameAssetsTargets g sup get set r.1 ts
    .ok (r2.1, set t r.2 :: r2.2)

/-- `rename_costumes` from `obfuscratchor.py` (lines 267-282): every
costume of every sprite (`targets[1:]`) gets a fresh name; the stage is
untouched. -/
def rename_costumes (targets : List Target) (options : Options) (sup : Nat → String) :
    Except PyErr (List Target) := do
  let (_, g) ← parse_rename_options options "costumes"
  match targets with
  | [] => .ok []
  | t0 :: rest => do
    let r ← renameAssetsTargets g sup (fun t => t.costumes)
      (fun t cs => { t with costumes := cs }) 0 rest
    .ok (t0 :: r.2)

/-- `rename_sounds` from `obfuscratchor.py` (lines 285-300, version
2.5): every sound of **every** target — `for sprite in targets:` — gets
a fresh name, the stage included. -/
def rename_sounds (targets : List Target) (options : Options) (sup : Nat → String) :
    Except PyErr (List Target) := do
  let (_, g) ← parse_rename_options options "sounds"
  let r ← renameAssetsTargets g sup (fun t => t.sounds)
    (fun t ss => { t with sounds := ss }) 0 targets
  .ok r.2

/-- `rename_backdrops` from `obfuscratchor.py` (lines 303-317): every
costume of the stage (`targets[0]`) gets a fresh name. -/
def rename_backdrops (targets : List Target) (options : Options) (sup : Nat → String) :
    Except PyErr (List Target) := do
  let (_, g) ← parse_rename_options options "backdrops"
  match targets with
  | [] => .error .indexError
  | t0 :: rest => do
    let r ← renameAssets g sup 0 t0.costumes
    .ok ({ t0 with costumes := r.2 } :: rest)

/-- The strategy key `rename_<name_name>_to` popped first by
`parse_rename_options`. -/
def strategyKey (nn : String) : String := "rename_" ++ nn ++ "_to"

/-- The length key `<name_name[:-1]>_name_length` popped second. -/
def lengthKey (nn : String) : String := nn.dropRight 1 ++ "_name_length"

/-- The value found under the strategy key (`none` when absent, i.e. the
`...` sentinel). -/
def strategyVal (opts : Options) (nn : String) : Option PyVal :=
  (popKey opts (strategyKey nn)).1

/-- The name-length value `parse_rename_options` checks (default 10). -/
def lengthVal (opts : Options) (nn : String) : PyVal :=
  (popKey (popKey opts (strategyKey nn)).2 (lengthKey nn)).1.getD (.vint 10)

/-- The options record left after the two initial pops, from which the
range bounds are popped. -/
def rangeOpts (opts : Options) (nn : String) : Options :=
  (popKey (popKey opts (strategyKey nn)).2 (lengthKey nn)).2

/-- The `range_start` value `parse_rename_options` compares
(default `None`). -/
def rangeStartVal (opts : Options) (nn : String) : PyVal :=
  (popKey (rangeOpts opts nn) "range_start").1.getD .vnone

/-- The `range_end` value `parse_rename_options` compares
(default `None`). -/
def rangeEndVal (opts : Options) (nn : String) : PyVal :=
  (popKey (popKey (rangeOpts opts nn) "range_start").2 "range_end").1.getD .vnone

/-- A one-target document: a stage owning a single variable. -/
def docOneVar : List Target :=
  [{ name := "Stage", vars := [("id1", [.vstr "score", .vint 0])],
     lists := [], costumes := [], sounds := [], blocks := [] }]

namespace Legacy

/-- `parse_rename_options` from `Obfuscratchor.py` (version 0.1.0,
lines 52-72): identical control flow to the 2.5 version, with slightly
different error messages. -/
def parse_rename_options (options : Options) (name_name : String) :
    Except PyErr (Options × Gen) :=
  let p1 := popKey options ("rename_" ++ name_name ++ "_to")
  let p2 := popKey p1.2 (name_name.dropRight 1 ++ "_name_length")
  let var_name_len := p2.1.getD (.vint 10)
  if isInstInt var_name_len then
    match p1.1 with
    | none => .error (.optionError ("rename_" ++ name_name ++ "_to cannot be null"))
    | some v =>
      if pyEqStr v "random_hex" then
        .ok (p2.2, .randomHex (pyToInt var_name_len))
      else if pyEqStr v "random_unicode_char_range" then
        let p3 := popKey p2.2 "range_start"
        let p4 := popKey p3.2 "range_end"
        let range_start := p3.1.getD .vnone
        let range_end := p4.1.getD .vnone
        match pyGt range_start range_end with
        | .error e => .error e
        | .ok true => .error (.optionError "range_start must < range_end")
        | .ok false =>
          if isInstInt range_start && isInstInt range_end then
            .ok (p4.2, .unicodeRange (pyToInt var_name_len) (pyToInt range_start)
              (pyToInt range_end))
          else .error (.optionError "range_start and range_end must be integer")
      else .ok (p2.2, .passthrough v)
  else .error (.optionError (name_name ++ "_name_length must be integer"))

/-- `rename_sounds` from `Obfuscratchor.py` (version 0.1.0, lines
123-129): every sound of every **sprite** — `for sprite in
targets[1:]:` — gets a fresh name; the stage is untouched. -/
def rename_sounds (targets : List Target) (options : Options) (sup : Nat → String) :
    Except PyErr (List Target) := do
  let (_, g) ← Legacy.parse_rename_options options "sounds"
  match targets with
  | [] => .ok []
  | t0 :: rest => do
    let r ← renameAssetsTargets g sup (fun t => t.sounds)
      (fun t ss => { t with sounds := ss }) 0 rest
    .ok (t0 :: r.2)

end Legacy

/-- Structural `mapM` for `Except`: the elementwise traversal performed
by a Python `for` loop that may raise. -/
def mapE {α β : Type} (f : α → Except PyErr β) : List α → Except PyErr (List β)
  | [] => .ok []
  | a :: rest => do
    let b ← f a
    let rest' ← mapE f rest
    .ok (b :: rest')

/-- Is `c` one of the placeholder kind letters of `%n`/`%s`/`%b`? -/
def isTokChar (c : Char) : Bool := c = 'n' || c = 's' || c = 'b'

/-- The two-character placeholder token `%<c>`. -/
def tokStr (c : Char) : String := String.mk ['%', c]

/-- The non-overlapping left-to-right scan of `re.findall(r'%[nsb]', s)`
as a two-state machine over the character list: `sawPct` records that
the previous character was an unconsumed `'%'`; when the current
character is then one of `n`/`s`/`b` a token is emitted and both
characters are consumed, otherwise the scan restarts at the current
character. -/
def findTokensAux : Bool → List Char → List String
  | _, [] => []
  | sawPct, c :: rest =>
    if sawPct && isTokChar c then tokStr c :: findTokensAux false rest
    else findTokensAux (c == '%') rest

/-- `re.findall(r'%[nsb]', ...)` on a character list. -/
def findTokens (l : List Char) : List String := findTokensAux false l

/-- `re.findall(r'%[nsb]', s)` on a string. -/
def findTokensS (s : String) : List String := findTokens s.data

/-- `' '.join(ts)`. -/
def pyJoinSpace : List String → String
  | [] => ""
  | [t] => t
  | t :: rest => t ++ " " ++ pyJoinSpace rest

/-- The first pass of `rename_my_blocks` on one block: a
`procedures_prototype` block gets a fresh display name, its placeholder
tokens are re-extracted, the new proccode `'%s %s' % (name, ' '.join(tokens))`
is recorded in the old-proccode → new-proccode map and written back. -/
def pass1Block (g : Gen) (sup : Nat → String) (ctr : Nat)
    (names : List (String × String)) (b : Block) :
    Except PyErr (Nat × List (String × String) × Block) :=
  if b.opcode = "procedures_prototype" then
    match b.mutation with
    | none => .error (.keyError "mutation")
    | some m => do
      let nm ← callGen g sup ctr
      let np := nm ++ " " ++ pyJoinSpace (findTokensS m.proccode)
      .ok (ctr + 1, dinsert names m.proccode np,
           { b with mutation := some { m with proccode := np } })
  else .ok (ctr, names, b)

/-- The first pass of `rename_my_blocks` over one target's blocks. -/
def pass1Blocks (g : Gen) (sup : Nat → String) :
    Nat → List (String × String) → List (String × Block) →
    Except PyErr (Nat × List (String × String) × List (String × Block))
  | ctr, names, [] => .ok (ctr, names, [])
  | ctr, names, (k, b) :: rest => do
    let r ← pass1Block g sup ctr names b
    let r2 ← pass1Blocks g sup r.1 r.2.1 rest
    .ok (r2.1, r2.2.1, (k, r.2.2) :: r2.2.2)

/-- The first pass of `rename_my_blocks` over every target. -/
def pass1Targets (g : Gen) (sup : Nat → String) :
    Nat → List (String × String) → List Target →
    Except PyErr (Nat × List (String × String) × List Target)
  | ctr, names, [] => .ok (ctr, names, [])
  | ctr, names, t :: ts => do
    let r ← pass1Blocks g sup ctr names t.blocks
    let r2 ← pass1Targets g sup r.1 r.2.1 ts
    .ok (r2.1, r2.2.1, { t with blocks := r.2.2 } :: r2.2.2)

/-- The second pass of `rename_my_blocks` on one block: a
`procedures_call` block's proccode is replaced by `names[proccode]` —
a missing entry raises `KeyError`, never skips. -/
def pass2Block (names : List (String × String)) (b : Block) : Except PyErr Block :=
  if b.opcode = "procedures_call" then
    match b.mutation with
    | none => .error (.keyError "mutation")
    | some m =>
      match alookup names m.proccode with
      | none => .error (.keyError m.proccode)
      | some np => .ok { b with mutation := some { m with proccode := np } }
  else .ok b

/-- The second pass of `rename_my_blocks` over one target. -/
def pass2Target (names : List (String × String)) (t : Target) : Except PyErr Target := do
  let blocks' ← mapE (fun p => do
    let b' ← pass2Block names p.2
    pure (p.1, b')) t.blocks
  pure { t with blocks := blocks' }

/-- `rename_my_blocks` from `obfuscratchor.py` (lines 320-345): resolve
the generator, rewrite every prototype while building the
old-proccode → new-proccode map, then rewrite every call site through
the map. -/
def rename_my_blocks (targets : List Target) (options : Options) (sup : Nat → String) :
    Except PyErr (List Target) := do
  let (_, g) ← parse_rename_options options "my_blocks"
  let r ← pass1Targets g sup 0 [] targets
  let out ← mapE (pass2Target r.2.1) r.2.2
  pure out

/-- A matched prototype pair between the input and output block lists:
position `j` holds a prototype block whose pre-pass proccode is `p` and
whose post-pass proccode is `np`, `np` being a generated name followed
by the re-extracted placeholder tokens of `p`. -/
def ProtoBlockPair (sup : Nat → String) (bsIn bsOut : List (String × Block))
    (p np : String) : Prop :=
  ∃ j kbIn kbOut, bsIn.get? j = some kbIn ∧ bsOut.get? j = some kbOut ∧
    kbIn.2.opcode = "procedures_prototype" ∧
    kbOut.2.opcode = "procedures_prototype" ∧
    (∃ m, kbIn.2.mutation = some m ∧ m.proccode = p) ∧
    (∃ m', kbOut.2.mutation = some m' ∧ m'.proccode = np) ∧
    (∃ i, np = sup i ++ " " ++ pyJoinSpace (findTokensS p))

/-- A matched prototype pair between input and output documents. -/
def ProtoTargetPair (sup : Nat → String) (tsIn tsOut : List Target)
    (p np : String) : Prop :=
  ∃ i tIn tOut, tsIn.get? i = some tIn ∧ tsOut.get? i = some tOut ∧
    ProtoBlockPair sup tIn.blocks tOut.blocks p np

/-- The six menu opcode/field pairs whose fields `rename_sprites`
rewrites. -/
def menus : List (String × String) :=
  [("motion_goto_menu", "TO"),
   ("motion_glideto_menu", "TO"),
   ("motion_pointtowards_menu", "TOWARDS"),
   ("control_create_clone_of_menu", "CLONE_OPTION"),
   ("sensing_touchingobjectmenu", "TOUCHINGOBJECTMENU"),
   ("sensing_of_object_menu", "OBJECT")]

/-- One `(menu_name, field_name)` iteration of the block-rewriting loop
of `rename_sprites`: if the opcode matches, read
`val['fields'][field_name][0]` (raising on a missing field or empty
list, as Python would) and, when it is a key of the rename map, write
the new name back into element `0`. -/
def applyMenu (names : List (String × String)) (b : Block) (mf : String × String) :
    Except PyErr Block :=
  if b.opcode = mf.1 then
    match alookup b.fields mf.2 with
    | none => .error (.keyError mf.2)
    | some [] => .error .indexError
    | some (h :: tl) =>
      match h with
      | .vstr s =>
        match alookup names s with
        | some ns => .ok { b with fields := dinsert b.fields mf.2 (.vstr ns :: tl) }
        | none => .ok b
      | _ => .ok b
  else .ok b

/-- The inner `for menu_name, field_name in menus.items():` loop. -/
def menuFold (names : List (String × String)) :
    Block → List (String × String) → Except PyErr Block
  | b, [] => .ok b
  | b, mf :: rest => do
    let b' ← applyMenu names b mf
    menuFold names b' rest

/-- The block-rewriting loop of `rename_sprites` over one target. -/
def rewriteBlocks (names : List (String × String)) (bs : List (String × Block)) :
    Except PyErr (List (String × Block)) :=
  mapE (fun kb => do
    let b' ← menuFold names kb.2 menus
    pure (kb.1, b')) bs

/-- The first loop of `rename_sprites`: every sprite gets a fresh name,
and `names[old_name] = new_name` is recorded. -/
def buildSpriteNames (g : Gen) (sup : Nat → String) :
    Nat → List (String × String) → List Target →
    Except PyErr (List (String × String) × List Target)
  | _, names, [] => .ok (names, [])
  | ctr, names, t :: ts => do
    let nm ← callGen g sup ctr
    let r ← buildSpriteNames g sup (ctr + 1) (dinsert names t.name nm) ts
    .ok (r.1, { t with name := nm } :: r.2)

/-- `rename_sprites` from `obfuscratchor.py` (lines 234-264): rename
every sprite (`targets[1:]`) recording old → new, then rewrite the six
sprite-menu fields of every block in every target (stage included). -/
def rename_sprites (targets : List Target) (options : Options) (sup : Nat → String) :
    Except PyErr (List Target) := do
  let (_, g) ← parse_rename_options options "sprites"
  match targets with
  | [] => .ok []
  | t0 :: rest => do
    let r ← buildSpriteNames g sup 0 [] rest
    let out ← mapE (fun t => do
      let bs ← rewriteBlocks r.1 t.blocks
      pure { t with blocks := bs }) (t0 :: r.2)
    pure out

/-- The rename map `buildSpriteNames` ends with, computed directly:
the `i`-th sprite's old name maps to `sup i`. -/
def spriteNamesAux (sup : Nat → String) :
    Nat → List (String × String) → List Target → List (String × String)
  | _, names, [] => names
  | ctr, names, t :: ts => spriteNamesAux sup (ctr + 1) (dinsert names t.name (sup ctr)) ts

/-- The final sprite rename map of a `rename_sprites` run on `targets`. -/
def spriteNamesMap (targets : List Target) (sup : Nat → String) : List (String × String) :=
  spriteNamesAux sup 0 [] (targets.drop 1)

/-- Python `v[i]` subscription: lists index positionally (IndexError out
of range), strings yield one-character strings, dicts would look up the
integer as a key (KeyError), and other values are not subscriptable. -/
def pyIndex : PyVal → Nat → Except PyErr PyVal
  | .vlist l, i =>
    match l.get? i with
    | some x => .ok x
    | none => .error .indexError
  | .vstr s, i =>
    match s.data.get? i with
    | some c => .ok (.vstr (String.mk [c]))
    | none => .error .indexError
  | .vdict _, _ => .error (.keyError "int")
  | _, _ => .error .typeError

/-- Python `v == n` against an integer literal (`True == 1`). -/
def pyEqInt (v : PyVal) (n : Int) : Bool :=
  match v with
  | .vint m => m == n
  | .vbool b => (if b then (1 : Int) else 0) == n
  | _ => false

/-- The code-point ranges of the Unicode general category `Nd` (decimal
digits), which is what `\d` matches on a `str` pattern and what `int`
accepts as digits (Unicode 15.0, the database shipped with CPython
3.12).  By the Unicode stability policy every `Nd` run is a contiguous
block of ten code points whose decimal values are `0`-`9` in order. -/
def ndRanges : List (Nat × Nat) :=
  [(0x0030, 0x0039), (0x0660, 0x0669), (0x06F0, 0x06F9), (0x07C0, 0x07C9),
   (0x0966, 0x096F), (0x09E6, 0x09EF), (0x0A66, 0x0A6F), (0x0AE6, 0x0AEF),
   (0x0B66, 0x0B6F), (0x0BE6, 0x0BEF), (0x0C66, 0x0C6F), (0x0CE6, 0x0CEF),
   (0x0D66, 0x0D6F), (0x0DE6, 0x0DEF), (0x0E50, 0x0E59), (0x0ED0, 0x0ED9),
   (0x0F20, 0x0F29), (0x1040, 0x1049), (0x1090, 0x1099), (0x17E0, 0x17E9),
   (0x1810, 0x1819), (0x1946, 0x194F), (0x19D0, 0x19D9), (0x1A80, 0x1A89),
   (0x1A90, 0x1A99), (0x1B50, 0x1B59), (0x1BB0, 0x1BB9), (0x1C40, 0x1C49),
   (0x1C50, 0x1C59), (0xA620, 0xA629), (0xA8D0, 0xA8D9), (0xA900, 0xA909),
   (0xA9D0, 0xA9D9), (0xA9F0, 0xA9F9), (0xAA50, 0xAA59), (0xABF0, 0xABF9),
   (0xFF10, 0xFF19), (0x104A0, 0x104A9), (0x10D30, 0x10D39),
   (0x11066, 0x1106F), (0x110F0, 0x110F9), (0x11136, 0x1113F),
   (0x111D0, 0x111D9), (0x112F0, 0x112F9), (0x11450, 0x11459),
   (0x114D0, 0x114D9), (0x11650, 0x11659), (0x116C0, 0x116C9),
   (0x11730, 0x11739), (0x118E0, 0x118E9), (0x11950, 0x11959),
   (0x11C50, 0x11C59), (0x11D50, 0x11D59), (0x11DA0, 0x11DA9),
   (0x11F50, 0x11F59), (0x16A60, 0x16A69), (0x16AC0, 0x16AC9),
   (0x16B50, 0x16B59), (0x1D7CE, 0x1D7D7), (0x1D7D8, 0x1D7E1),
   (0x1D7E2, 0x1D7EB), (0x1D7EC, 0x1D7F5), (0x1D7F6, 0x1D7FF),
   (0x1E140, 0x1E149), (0x1E2F0, 0x1E2F9), (0x1E4F0, 0x1E4F9),
   (0x1E950, 0x1E959), (0x1FBF0, 0x1FBF9)]

/-- `\d` on a `str` pattern: any Unicode decimal digit (category `Nd`). -/
def isDecimalDigit (c : Char) : Bool :=
  ndRanges.any (fun r => decide (r.1 ≤ c.toNat) && decide (c.toNat ≤ r.2))

/-- The decimal value of a Unicode decimal digit: its offset inside its
`Nd` run (this is the digit value `int` assigns it). -/
def digitVal (c : Char) : Nat :=
  match ndRanges.find? (fun r => decide (r.1 ≤ c.toNat) && decide (c.toNat ≤ r.2)) with
  | some r => c.toNat - r.1
  | none => 0

/-- The digit run of a string accepted by `re.match(r'^\d+$', s)`:
outside `MULTILINE` mode `$` matches at the end of the string or just
before a newline at the very end, so an accepted string is its digit run
possibly followed by one final newline. -/
def digitsPart (s : String) : List Char :=
  if s.data.getLast? = some '\n' then s.data.dropLast else s.data

/-- `re.match(r'^\d+$', s)`: one or more Unicode decimal digits spanning
the whole string, except that a single final newline is also accepted
(`$` matches before it). -/
def regexAllDigits (s : String) : Bool :=
  !(digitsPart s).isEmpty && (digitsPart s).all isDecimalDigit

/-- `int(s)` for a string accepted by the digit pattern: `int` strips
surrounding whitespace (here at most the final newline) and folds the
decimal digit values left to right. -/
def digitsToNat (s : String) : Nat :=
  (digitsPart s).foldl (fun acc c => acc * 10 + digitVal c) 0

/-- Python `hex(n)` for a non-negative `n`: `0x` followed by the
lowercase base-16 digits, no padding. -/
def pyHex (n : Nat) : String := "0x" ++ (Nat.toDigits 16 n).asString

/-- The assignment `...inputs[k][1][1] = hex(int(num))`: replaces
element `1` of the wrapped literal list `v[1]` inside the slot `v`. -/
def setInner (v : PyVal) (newText : String) : Except PyErr PyVal :=
  match v with
  | .vlist l =>
    match l.get? 1 with
    | some (.vlist m) => do
      let m' ← setIdx m 1 (.vstr newText)
      .ok (.vlist (l.set 1 (.vlist m')))
    | some _ => .error .typeError
    | none => .error .indexError
  | _ => .error .typeError

/-- The per-slot body of `convert_integers_to_hexadecimal` (lines
363-365): `if v[1] and v[1][0] == 4 and re.match(r'^\d+$', (num := v[1][1])):`
then rewrite `v[1][1]` to `hex(int(num))`.  Short-circuit evaluation is
preserved: a falsy `v[1]` is skipped without further subscription, and
`re.match` on a non-string raises `TypeError`. -/
def convertSlot (v : PyVal) : Except PyErr PyVal := do
  let w ← pyIndex v 1
  if pyTruthy w then
    let w0 ← pyIndex w 0
    if pyEqInt w0 4 then
      let num ← pyIndex w 1
      match num with
      | .vstr s =>
        if regexAllDigits s then setInner v (pyHex (digitsToNat s))
        else pure v
      | _ => .error .typeError
    else pure v
  else pure v

/-- Does the slot match the conversion condition: a wrapped literal list
whose kind code equals `4` and whose text is all decimal digits? -/
def slotConvertible (v : PyVal) : Bool :=
  match v with
  | .vlist (_ :: .vlist (k :: .vstr s :: _) :: _) => pyEqInt k 4 && regexAllDigits s
  | _ => false

/-- The effect of `convertSlot` on a slot, as a total function: the
convertible shape gets its literal text replaced by the hexadecimal
form; everything else is unchanged. -/
def slotStep (v : PyVal) : PyVal :=
  match v with
  | .vlist (a :: .vlist (k :: .vstr s :: r) :: rest) =>
    if pyEqInt k 4 && regexAllDigits s then
      .vlist (a :: .vlist (k :: .vstr (pyHex (digitsToNat s)) :: r) :: rest)
    else .vlist (a :: .vlist (k :: .vstr s :: r) :: rest)
  | v => v

/-- `convert_integers_to_hexadecimal`'s inner loops over one block's
input slots. -/
def convBlock (b : Block) : Except PyErr Block := do
  let inputs' ← mapE (fun p => do
    let v' ← convertSlot p.2
    pure (p.1, v')) b.inputs
  pure { b with inputs := inputs' }

/-- `convert_integers_to_hexadecimal`'s loop over one target. -/
def convTarget (t : Target) : Except PyErr Target := do
  let blocks' ← mapE (fun p => do
    let b' ← convBlock p.2
    pure (p.1, b')) t.blocks
  pure { t with blocks := blocks' }

/-- `convert_integers_to_hexadecimal` from `obfuscratchor.py` (lines
348-366): when enabled, rewrite every all-decimal plain-numeric input
literal of every block to its `0x`-prefixed base-16 form. -/
def convert_integers_to_hexadecimal (targets : List Target) (convert : Bool) :
    Except PyErr (List Target) :=
  if convert then mapE convTarget targets else .ok targets

/-- The expected value type of each recognized top-level option. -/
inductive PyType where
  | tdict : PyType
  | tbool : PyType

/-- The `option_names` dispatch table of `obfuscate` (lines 393-402), in
its fixed order. -/
def optionNames : List (String × PyType) :=
  [("rename_variables", .tdict),
   ("rename_lists", .tdict),
   ("rename_sprites", .tdict),
   ("rename_costumes", .tdict),
   ("rename_sounds", .tdict),
   ("rename_backdrops", .tdict),
   ("rename_my_blocks", .tdict),
   ("convert_integers_to_hexadecimal", .tbool)]

/-- The recognized top-level option names. -/
def recognizedNames : List String := optionNames.map Prod.fst

/-- `isinstance(option, option_type)` for the two dispatch types. -/
def isinstanceTy (v : PyVal) : PyType → Bool
  | .tdict => match v with | .vdict _ => true | _ => false
  | .tbool => match v with | .vbool _ => true | _ => false

/-- `globals()[option_name](targets, option)`: run the pass selected by
name on the already-type-checked option payload. -/
def dispatchStep (targets : List Target) (name : String) (v : PyVal)
    (sup : Nat → String) : Except PyErr (List Target) :=
  match name, v with
  | "rename_variables", .vdict d => rename_variables targets d sup
  | "rename_lists", .vdict d => rename_lists targets d sup
  | "rename_sprites", .vdict d => rename_sprites targets d sup
  | "rename_costumes", .vdict d => rename_costumes targets d sup
  | "rename_sounds", .vdict d => rename_sounds targets d sup
  | "rename_backdrops", .vdict d => rename_backdrops targets d sup
  | "rename_my_blocks", .vdict d => rename_my_blocks targets d sup
  | "convert_integers_to_hexadecimal", .vbool b =>
    convert_integers_to_hexadecimal targets b
  | _, _ => .ok targets

/-- The dispatch loop of `obfuscate` (lines 403-405):
`if option_name in options and isinstance((option := options.pop(option_name)), option_type):`.
Note the walrus `pop` runs whenever the key is present, so a
recognized key is removed from the record even when its value has the
wrong type — it is then neither run nor warned about. -/
def dispatchAll (sups : Nat → Nat → String) :
    List Target → Options → List (String × PyType) → Nat →
    Except PyErr (List Target × Options)
  | targets, opts, [], _ => .ok (targets, opts)
  | targets, opts, (n, ty) :: rest, i =>
    let p := popKey opts n
    match p.1 with
    | none => dispatchAll sups targets opts rest (i + 1)
    | some v =>
      if isinstanceTy v ty then do
        let t' ← dispatchStep targets n v (sups i)
        dispatchAll sups t' p.2 rest (i + 1)
      else dispatchAll sups targets p.2 rest (i + 1)

/-- The core of `obfuscate` (lines 387-411), file handling elided: run
the dispatch loop over a copy of the options record, then warn once per
leftover key; an `.ok` result is a produced (saved) output document
together with the emitted warning keys, an `.error` aborts before any
output is written. -/
def obfuscateCore (targets : List Target) (options : Options)
    (sups : Nat → Nat → String) : Except PyErr (List Target × List String) := do
  let r ← dispatchAll sups targets options optionNames 0
  pure (r.1, r.2.map Prod.fst)

/-- The pointwise relation a renamed asset satisfies: same data, display
name drawn from the generator supply. -/
def assetRel (sup : Nat → String) (a a' : Asset) : Prop :=
  a'.assetData = a.assetData ∧ ∃ k, a'.name = sup k

/-- The relation the first procedure pass establishes between a block
entry and its rewrite: everything but a prototype's mutation is kept. -/
def P1BlockRel (kb kb' : String × Block) : Prop :=
  kb'.1 = kb.1 ∧ (kb'.2).opcode = (kb.2).opcode ∧ (kb'.2).fields = (kb.2).fields ∧
  (kb'.2).inputs = (kb.2).inputs ∧
  ((kb.2).opcode ≠ "procedures_prototype" → kb'.2 = kb.2)

/-- The relation the first procedure pass establishes targetwise. -/
def P1TargetRel (t t' : Target) : Prop :=
  t'.name = t.name ∧ t'.vars = t.vars ∧ t'.lists = t.lists ∧
  t'.costumes = t.costumes ∧ t'.sounds = t.sounds ∧
  List.Forall₂ P1BlockRel t.blocks t'.blocks

/-- The relation the second procedure pass establishes between a block
entry and its rewrite: call sites get the mapped proccode, everything
else is untouched. -/
def P2BlockRel (names : List (String × String)) (kb kb' : String × Block) : Prop :=
  kb'.1 = kb.1 ∧ (kb'.2).opcode = (kb.2).opcode ∧ (kb'.2).fields = (kb.2).fields ∧
  (kb'.2).inputs = (kb.2).inputs ∧
  ((kb.2).opcode ≠ "procedures_call" → kb'.2 = kb.2) ∧
  ((kb.2).opcode = "procedures_call" → ∃ m np, (kb.2).mutation = some m ∧
    alookup names m.proccode = some np ∧
    (kb'.2).mutation = some { m with proccode := np })

/-- The relation the second procedure pass establishes targetwise. -/
def P2TargetRel (names : List (String × String)) (t t' : Target) : Prop :=
  t'.name = t.name ∧ t'.vars = t.vars ∧ t'.lists = t.lists ∧
  t'.costumes = t.costumes ∧ t'.sounds = t.sounds ∧
  List.Forall₂ (P2BlockRel names) t.blocks t'.blocks

/-- The relation `rename_my_blocks` establishes targetwise between the
input and output documents: call-site placeholder sequences are
preserved and every call-site's post-pass proccode is the post-pass
proccode of a matching prototype. -/
def C5TargetRel (sup : Nat → String) (tsIn tsOut : List Target) (t t' : Target) : Prop :=
  t'.name = t.name ∧ t'.vars = t.vars ∧ t'.lists = t.lists ∧
  t'.costumes = t.costumes ∧ t'.sounds = t.sounds ∧
  List.Forall₂ (fun kb kb' => kb'.1 = kb.1 ∧
    ((kb' : String × Block).2).opcode = ((kb : String × Block).2).opcode ∧
    (((kb : String × Block).2).opcode = "procedures_call" →
      ∀ m m', ((kb : String × Block).2).mutation = some m →
        ((kb' : String × Block).2).mutation = some m' →
        findTokensS m'.proccode = findTokensS m.proccode ∧
        ProtoTargetPair sup tsIn tsOut m.proccode m'.proccode)) t.blocks t'.blocks

/-- The new value of a menu field's list after the sprite-name
substitution of `rename_sprites`: element `0` is replaced when it is a
string found in the rename map, otherwise the list is unchanged. -/
def menuNewVal (names : List (String × String)) (fv : List PyVal) : List PyVal :=
  match fv with
  | .vstr s :: tl =>
    match alookup names s with
    | some ns => .vstr ns :: tl
    | none => .vstr s :: tl
  | fv => fv

/-- The relation the sprite pass's block-rewriting loop establishes on
one block entry: only the field named by the block's matching menu pair
changes, by `menuNewVal`. -/
def menuBlockRel (names : List (String × String)) (kb kb' : String × Block) : Prop :=
  kb'.1 = kb.1 ∧ (kb'.2).opcode = (kb.2).opcode ∧ (kb'.2).inputs = (kb.2).inputs ∧
  (kb'.2).mutation = (kb.2).mutation ∧
  List.Forall₂ (fun f f' => f'.1 = f.1 ∧
    f'.2 = if ((kb.2).opcode, f.1) ∈ menus then menuNewVal names f.2 else f.2)
    (kb.2).fields (kb'.2).fields

/-- The targetwise relation `rename_sprites` establishes: all entity
collections preserved, every block rewritten by `menuBlockRel`. -/
def C6TargetRel (names : List (String × String)) (t t' : Target) : Prop :=
  t'.vars = t.vars ∧ t'.lists = t.lists ∧ t'.costumes = t.costumes ∧
  t'.sounds = t.sounds ∧ List.Forall₂ (menuBlockRel names) t.blocks t'.blocks

/-- A three-target document: a stage with a goto-menu block referencing
the sprite `Cat` and a touching-menu block referencing the
`mouse-pointer` pseudo-target, plus two sprites. -/
def docSprites : List Target :=
  [{ name := "Stage", vars := [], lists := [], costumes := [], sounds := [],
     blocks := [("b1",
       { opcode := "motion_goto_menu",
         fields := [("TO", [.vstr "Cat"])], inputs := [], mutation := none }),
      ("b2",
       { opcode := "sensing_touchingobjectmenu",
         fields := [("TOUCHINGOBJECTMENU", [.vstr "mouse-pointer"])],
         inputs := [], mutation := none })] },
   { name := "Cat", vars := [], lists := [], costumes := [], sounds := [],
     blocks := [] }]

/-- A procedure prototype block with two placeholder parameters. -/
def protoBlock : Block :=
  { opcode := "procedures_prototype", fields := [], inputs := [],
    mutation := some { proccode := "do thing %n %s", mutationRest := .vnone } }

/-- A call block matching `protoBlock`'s proccode. -/
def callBlock : Block :=
  { opcode := "procedures_call", fields := [], inputs := [],
    mutation := some { proccode := "do thing %n %s", mutationRest := .vnone } }

/-- A one-target document with a matching prototype/call pair. -/
def docProc : List Target :=
  [{ name := "Stage", vars := [], lists := [], costumes := [], sounds := [],
     blocks := [("p1", protoBlock), ("c1", callBlock)] }]

/-- A target whose only block is a call with no matching prototype. -/
def danglingTarget : Target :=
  { name := "Stage", vars := [], lists := [], costumes := [], sounds := [],
    blocks := [("c1", callBlock)] }

/-- A document containing a dangling procedure call. -/
def docDangling : List Target := [danglingTarget]

/-- A one-target document holding a single block with two numeric input
slots: one wrapping the ASCII literal "255" and one wrapping the
Arabic-Indic digit five (U+0665), which `\d` also matches. -/
def docConv : List Target :=
  [{ name := "Stage", vars := [], lists := [], costumes := [], sounds := [],
     blocks := [("b1",
       { opcode := "math_number", fields := [],
         inputs := [("NUM", .vlist [.vint 1, .vlist [.vint 4, .vstr "255"]]),
                    ("NUM2", .vlist [.vint 1, .vlist [.vint 4, .vstr "٥"]])],
         mutation := none })] }]

/-- A prototype block whose proccode `"f %n"` holds one placeholder. -/
def pctProtoBlock : Block :=
  { opcode := "procedures_prototype", fields := [], inputs := [],
    mutation := some { proccode := "f %n", mutationRest := .vnone } }

/-- A call block matching `pctProtoBlock`'s proccode. -/
def pctCallBlock : Block :=
  { opcode := "procedures_call", fields := [], inputs := [],
    mutation := some { proccode := "f %n", mutationRest := .vnone } }

/-- A one-target document with the matching prototype/call pair
`"f %n"`. -/
def docPct : List Target :=
  [{ name := "Stage", vars := [], lists := [], costumes := [], sounds := [],
     blocks := [("p1", pctProtoBlock), ("c1", pctCallBlock)] }]

/-- `rename_my_blocks` options selecting `random_unicode_char_range`
over the code points `0x25` (`'%'`) to `0x6E` (`'n'`) with name length
`2`: a configuration whose generator can return the string `"%n"`. -/
def pctOpts : Options :=
  [("rename_my_blocks_to", .vstr "random_unicode_char_range"),
   ("my_block_name_length", .vint 2),
   ("range_start", .vint 0x25), ("range_end", .vint 0x6E)]

/-- A two-target document: a stage with one sound and a sprite with one
sound. -/
def docSounds : List Target :=
  [{ name := "Stage", vars := [], lists := [], costumes := [],
     sounds := [{ name := "pop", assetData := .vnone }], blocks := [] },
   { name := "Sprite1", vars := [], lists := [], costumes := [],
     sounds := [{ name := "meow", assetData := .vnone }], blocks := [] }]

end Obf

namespace Obf

theorem isHexChar_digitChar : ∀ k < 16, isHexChar (Nat.digitChar k) = true := by decide

theorem token_hex_length (n : Nat) (bytes : Nat → Nat) :
    (token_hex n bytes).length = 2 * n := by
  induction n generalizing bytes with
  | zero => rfl
  | succ m ih =>
    simp only [token_hex, String.length_append, ih]
    simp [hexByte, String.length]
    ring

theorem token_hex_chars (n : Nat) (bytes : Nat → Nat) :
    ∀ c ∈ (token_hex n bytes).data, isHexChar c = true := by
  induction n generalizing bytes with
  | zero => intro c hc; simp [token_hex, String.data] at hc
  | succ m ih =>
    intro c hc
    simp only [token_hex, String.data_append, List.mem_append] at hc
    rcases hc with hc | hc
    · have hdiv : bytes 0 % 256 / 16 < 16 := by omega
      have hmod : bytes 0 % 16 < 16 := Nat.mod_lt _ (by norm_num)
      simp only [hexByte, String.data, List.mem_cons, List.not_mem_nil, or_false] at hc
      rcases hc with hc | hc
      · exact hc ▸ isHexChar_digitChar _ hdiv
      · exact hc ▸ isHexChar_digitChar _ hmod
    · exact ih _ c hc

theorem parse_missing_strategy (opts : Options) (nn : String)
    (h1 : strategyVal opts nn = none)
    (h2 : isInstInt (lengthVal opts nn) = true) :
    parse_rename_options opts nn =
      .error (.optionError ("rename_" ++ nn ++ "_to cannot be null.")) := by
  simp only [strategyVal, strategyKey] at h1
  simp only [lengthVal, strategyKey, lengthKey] at h2
  unfold parse_rename_options
  simp [h1, h2]

theorem parse_bad_length (opts : Options) (nn : String)
    (h2 : isInstInt (lengthVal opts nn) = false) :
    parse_rename_options opts nn =
      .error (.optionError (nn ++ "_name_length must be an integer.")) := by
  simp only [lengthVal, strategyKey, lengthKey] at h2
  unfold parse_rename_options
  simp [h2]

theorem parse_unicode_inverted (opts : Options) (nn : String) (a b : Int)
    (hlen : isInstInt (lengthVal opts nn) = true)
    (hstrat : strategyVal opts nn = some (.vstr "random_unicode_char_range"))
    (hs : rangeStartVal opts nn = .vint a)
    (he : rangeEndVal opts nn = .vint b)
    (hlt : b < a) :
    parse_rename_options opts nn =
      .error (.optionError "range_start must be less than range_end.") := by
  simp only [strategyVal, strategyKey] at hstrat
  simp only [lengthVal, strategyKey, lengthKey] at hlen
  simp only [rangeStartVal, rangeOpts, strategyKey, lengthKey] at hs
  simp only [rangeEndVal, rangeOpts, strategyKey, lengthKey] at he
  unfold parse_rename_options
  simp [hstrat, hlen, hs, he, pyEqStr, pyGt, hlt]

theorem parse_unicode_str_bounds (opts : Options) (nn : String) (s1 s2 : String)
    (hlen : isInstInt (lengthVal opts nn) = true)
    (hstrat : strategyVal opts nn = some (.vstr "random_unicode_char_range"))
    (hs : rangeStartVal opts nn = .vstr s1)
    (he : rangeEndVal opts nn = .vstr s2)
    (hle : ¬ s2 < s1) :
    parse_rename_options opts nn =
      .error (.optionError "range_start and range_end must be integers.") := by
  simp only [strategyVal, strategyKey] at hstrat
  simp only [lengthVal, strategyKey, lengthKey] at hlen
  simp only [rangeStartVal, rangeOpts, strategyKey, lengthKey] at hs
  simp only [rangeEndVal, rangeOpts, strategyKey, lengthKey] at he
  have hi1 : isInstInt (PyVal.vstr s1) = false := rfl
  unfold parse_rename_options
  simp [hstrat, hlen, hs, he, pyEqStr, pyGt, hle, hi1]

theorem parse_unicode_missing_bound (opts : Options) (nn : String)
    (hlen : isInstInt (lengthVal opts nn) = true)
    (hstrat : strategyVal opts nn = some (.vstr "random_unicode_char_range"))
    (hs : rangeStartVal opts nn = .vnone) :
    parse_rename_options opts nn = .error .typeError := by
  simp only [strategyVal, strategyKey] at hstrat
  simp only [lengthVal, strategyKey, lengthKey] at hlen
  simp only [rangeStartVal, rangeOpts, strategyKey, lengthKey] at hs
  unfold parse_rename_options
  simp [hstrat, hlen, hs, pyEqStr, pyGt]

theorem parse_error_means_variables_untouched (targets : List Target)
    (opts : Options) (sup : Nat → String) (e : PyErr)
    (h : parse_rename_options opts "variables" = .error e) :
    rename_variables targets opts sup = .error e := by
  unfold rename_variables
  rw [h]
  rfl

/-- C1 — the claim is FALSE on the code at a concrete input: a present
`null` (`None`) strategy value does not raise `OptionError`;
`parse_rename_options` returns it unchanged as the supposed generator. -/
theorem c1_counterexample :
    parse_rename_options [("rename_variables_to", PyVal.vnone)] "variables" =
      .ok ([], .passthrough .vnone) := by
  rfl

/-- C1 (amended): `parse_rename_options` raises `OptionError` when the
strategy key is missing, when the name-length value is not an integer,
when comparable integer `random_unicode_char_range` bounds are inverted,
or when comparable non-integer bounds are in order; a missing (or
`None`) range bound instead raises `TypeError`, and a present `null`
strategy value raises nothing; any `parse_rename_options` error aborts
`rename_variables` before any entity is touched. -/
theorem c1_theorem :
    (∀ (opts : Options) (nn : String), strategyVal opts nn = none →
      isInstInt (lengthVal opts nn) = true →
      ∃ m, parse_rename_options opts nn = .error (.optionError m)) ∧
    (∀ (opts : Options) (nn : String), isInstInt (lengthVal opts nn) = false →
      ∃ m, parse_rename_options opts nn = .error (.optionError m)) ∧
    (∀ (opts : Options) (nn : String) (a b : Int),
      isInstInt (lengthVal opts nn) = true →
      strategyVal opts nn = some (.vstr "random_unicode_char_range") →
      rangeStartVal opts nn = .vint a → rangeEndVal opts nn = .vint b → b < a →
      ∃ m, parse_rename_options opts nn = .error (.optionError m)) ∧
    (∀ (opts : Options) (nn : String) (s1 s2 : String),
      isInstInt (lengthVal opts nn) = true →
      strategyVal opts nn = some (.vstr "random_unicode_char_range") →
      rangeStartVal opts nn = .vstr s1 → rangeEndVal opts nn = .vstr s2 → ¬ s2 < s1 →
      ∃ m, parse_rename_options opts nn = .error (.optionError m)) ∧
    (∀ (opts : Options) (nn : String),
      isInstInt (lengthVal opts nn) = true →
      strategyVal opts nn = some (.vstr "random_unicode_char_range") →
      rangeStartVal opts nn = .vnone →
      parse_rename_options opts nn = .error .typeError) ∧
    (∀ (targets : List Target) (opts : Options) (sup : Nat → String) (e : PyErr),
      parse_rename_options opts "variables" = .error e →
      rename_variables targets opts sup = .error e) := by
  refine ⟨?_, ?_, ?_, ?_, ?_, ?_⟩
  · exact fun opts nn h1 h2 => ⟨_, parse_missing_strategy opts nn h1 h2⟩
  · exact fun opts nn h2 => ⟨_, parse_bad_length opts nn h2⟩
  · exact fun opts nn a b hl hst hs he hlt =>
      ⟨_, parse_unicode_inverted opts nn a b hl hst hs he hlt⟩
  · exact fun opts nn s1 s2 hl hst hs he hle =>
      ⟨_, parse_unicode_str_bounds opts nn s1 s2 hl hst hs he hle⟩
  · exact fun opts nn hl hst hs => parse_unicode_missing_bound opts nn hl hst hs
  · exact fun targets opts sup e h =>
      parse_error_means_variables_untouched targets opts sup e h

/-- Witness for `c1_theorem` at concrete records. -/
theorem c1_witness :
    (∃ m, parse_rename_options [] "variables" = .error (.optionError m)) ∧
    (∃ m, parse_rename_options
        [("rename_variables_to", PyVal.vstr "random_hex"),
         ("variable_name_length", PyVal.vstr "ten")] "variables" =
      .error (.optionError m)) ∧
    (∃ m, parse_rename_options
        [("rename_variables_to", PyVal.vstr "random_unicode_char_range"),
         ("range_start", PyVal.vint 9), ("range_end", PyVal.vint 3)] "variables" =
      .error (.optionError m)) ∧
    (parse_rename_options
        [("rename_variables_to", PyVal.vstr "random_unicode_char_range"),
         ("range_end", PyVal.vint 3)] "variables" = .error .typeError) ∧
    (rename_variables docOneVar [] (fun _ => "") =
      .error (.optionError "rename_variables_to cannot be null.")) := by
  refine ⟨?_, ?_, ?_, ?_, ?_⟩
  · exact c1_theorem.1 [] "variables" rfl rfl
  · exact c1_theorem.2.1 _ "variables" rfl
  · exact c1_theorem.2.2.1 _ "variables" 9 3 rfl rfl rfl rfl (by norm_num)
  · exact c1_theorem.2.2.2.2.1 _ "variables" rfl rfl rfl
  · exact c1_theorem.2.2.2.2.2 docOneVar [] (fun _ => "")
      (.optionError "rename_variables_to cannot be null.") rfl

/-- C2 — the claim is FALSE on the code at a concrete input: for a valid
`random_hex` record with name length `1`, `secrets.token_hex(1)`
produces two hexadecimal characters, not one. -/
theorem c2_counterexample :
    parse_rename_options
        [("rename_variables_to", PyVal.vstr "random_hex"),
         ("variable_name_length", PyVal.vint 1)] "variables" =
      .ok ([], .randomHex 1) ∧
    callHex 1 (fun _ => 255) = .ok "ff" ∧ ¬ ("ff".length = 1) := by
  refine ⟨rfl, rfl, by decide⟩

/-- C2 (amended): for every valid `random_hex` options record with name
length `L`, every name the resolved generator produces is a string of
exactly `2 * L` hexadecimal characters. -/
theorem c2_theorem (opts : Options) (nn : String) (o : Options) (L : Int)
    (hp : parse_rename_options opts nn = .ok (o, .randomHex L))
    (bytes : Nat → Nat) (s : String)
    (hc : callHex L bytes = .ok s) :
    s.length = 2 * L.toNat ∧ ∀ c ∈ s.data, isHexChar c = true := by
  unfold callHex at hc
  by_cases hneg : L < 0
  · simp [hneg] at hc
  · simp [hneg] at hc
    subst hc
    exact ⟨token_hex_length _ _, token_hex_chars _ _⟩

/-- Witness for `c2_theorem` at a concrete record. -/
theorem c2_witness :
    ("ff".length = 2 * (1 : Int).toNat) ∧ (∀ c ∈ "ff".data, isHexChar c = true) := by
  exact c2_theorem
    [("rename_variables_to", PyVal.vstr "random_hex"),
     ("variable_name_length", PyVal.vint 1)] "variables" [] 1 rfl
    (fun _ => 255) "ff" rfl

theorem unicodeChars_ok (n : Nat) (s e : Int) (picks : Nat → Nat)
    (l : List Nat) (h : unicodeChars n s e picks = .ok l) :
    l.length = n ∧ ∀ cp ∈ l, s ≤ (cp : Int) ∧ (cp : Int) ≤ e := by
  induction n generalizing picks l with
  | zero =>
    simp only [unicodeChars] at h
    cases h
    exact ⟨rfl, by simp⟩
  | succ m ih =>
    simp only [unicodeChars] at h
    by_cases hsz : (e + 1 - s).toNat = 0
    · rw [if_pos hsz] at h; cases h
    · rw [if_neg hsz] at h
      simp only [bind, Except.bind] at h
      split at h
      · cases h
      · rename_i c hch
        split at h
        · cases h
        · rename_i rest hrest
          cases h
          obtain ⟨hlen, hall⟩ := ih _ _ hrest
          simp only [pyChr] at hch
          split at hch
          · rename_i hv
            cases hch
            refine ⟨by simp [hlen], ?_⟩
            intro cp hcp
            rcases List.mem_cons.mp hcp with hcp | hcp
            · subst hcp
              have hmod : (picks 0 % (e + 1 - s).toNat) < (e + 1 - s).toNat :=
                Nat.mod_lt _ (Nat.pos_of_ne_zero hsz)
              rw [Int.toNat_of_nonneg hv.1]
              omega
            · exact hall cp hcp
          · cases hch


/-- C9: for every valid `random_unicode_char_range` options record with
integer bounds `start ≤ end` and (non-negative) name length `L`, every
string produced by the resolved generator has length exactly `L` and
every character's code point lies in `[start, end]`. -/
theorem c9_theorem (opts : Options) (nn : String) (o : Options) (L s e : Int)
    (hp : parse_rename_options opts nn = .ok (o, .unicodeRange L s e))
    (hL : 0 ≤ L)
    (picks : Nat → Nat) (l : List Nat)
    (hcall : unicodeName L s e picks = .ok l) :
    (l.length : Int) = L ∧ ∀ cp ∈ l, s ≤ (cp : Int) ∧ (cp : Int) ≤ e := by
  obtain ⟨hlen, hall⟩ := unicodeChars_ok _ _ _ _ _ hcall
  exact ⟨by rw [hlen]; exact Int.toNat_of_nonneg hL, hall⟩

/-- Witness for `c9_theorem` at a concrete record. -/
theorem c9_witness :
    ((([65, 65] : List Nat).length : Int) = 2) ∧
    (∀ cp ∈ ([65, 65] : List Nat), (65 : Int) ≤ (cp : Int) ∧ (cp : Int) ≤ 66) := by
  exact c9_theorem
    [("rename_variables_to", PyVal.vstr "random_unicode_char_range"),
     ("variable_name_length", PyVal.vint 2),
     ("range_start", PyVal.vint 65), ("range_end", PyVal.vint 66)]
    "variables" [] 2 65 66 rfl (by norm_num) (fun _ => 0) [65, 65] rfl

/-- C10: a present strategy value that is neither `"random_hex"` nor
`"random_unicode_char_range"` raises no error in
`parse_rename_options`; the value is returned unchanged as the supposed
generator, and the failure surfaces only when a rename pass calls it —
as a `TypeError`, not an `OptionError`. -/
theorem c10_theorem (opts : Options) (nn : String) (v : PyVal)
    (hstrat : strategyVal opts nn = some v)
    (hlen : isInstInt (lengthVal opts nn) = true)
    (h1 : pyEqStr v "random_hex" = false)
    (h2 : pyEqStr v "random_unicode_char_range" = false) :
    parse_rename_options opts nn = .ok (rangeOpts opts nn, .passthrough v) ∧
    (∀ sup i, callGen (.passthrough v) sup i = .error .typeError) ∧
    (nn = "variables" →
      (popKey (rangeOpts opts nn) "rename_public_variables").1 = none →
      ∀ sup, rename_variables docOneVar opts sup = .error .typeError) ∧
    (∀ m, PyErr.typeError ≠ .optionError m) := by
  have hparse : parse_rename_options opts nn = .ok (rangeOpts opts nn, .passthrough v) := by
    simp only [strategyVal, strategyKey] at hstrat
    simp only [lengthVal, strategyKey, lengthKey] at hlen
    unfold parse_rename_options
    simp [hstrat, hlen, h1, h2, rangeOpts, strategyKey, lengthKey]
  refine ⟨hparse, fun sup i => rfl, ?_, fun m h => by cases h⟩
  intro hnn hpub sup
  subst hnn
  unfold rename_variables
  rw [hparse]
  simp only [bind, Except.bind, hpub, Option.getD, pyTruthy]
  simp [docOneVar, renameEntries, callGen, bind, Except.bind]

/-- Witness for `c10_theorem` at a concrete record. -/
theorem c10_witness :
    (parse_rename_options [("rename_variables_to", PyVal.vstr "foo")] "variables" =
      .ok ([], .passthrough (.vstr "foo"))) ∧
    (∀ sup i, callGen (.passthrough (.vstr "foo")) sup i = .error .typeError) ∧
    (rename_variables docOneVar [("rename_variables_to", PyVal.vstr "foo")]
        (fun _ => "") = .error .typeError) ∧
    (∀ m, PyErr.typeError ≠ .optionError m) := by
  have h := c10_theorem [("rename_variables_to", PyVal.vstr "foo")] "variables"
    (.vstr "foo") rfl rfl rfl rfl
  exact ⟨h.1, h.2.1, h.2.2.1 rfl rfl (fun _ => ""), h.2.2.2⟩


theorem callGen_ok (g : Gen) (sup : Nat → String) (i : Nat) (nm : String)
    (h : callGen g sup i = .ok nm) : nm = sup i := by
  cases g with
  | passthrough v => simp [callGen] at h
  | randomHex L => simp only [callGen] at h; cases h; rfl
  | unicodeRange L a b => simp only [callGen] at h; cases h; rfl

theorem renameAssets_ok (g : Gen) (sup : Nat → String) :
    ∀ (ctr : Nat) (xs : List Asset) (r : Nat × List Asset),
    renameAssets g sup ctr xs = .ok r → List.Forall₂ (assetRel sup) xs r.2 := by
  intro ctr xs
  induction xs generalizing ctr with
  | nil =>
    intro r h
    simp only [renameAssets] at h
    cases h
    exact List.Forall₂.nil
  | cons a rest ih =>
    intro r h
    simp only [renameAssets, bind, Except.bind] at h
    split at h
    · cases h
    · rename_i nm hnm
      split at h
      · cases h
      · rename_i r2 hr2
        cases h
        exact List.Forall₂.cons ⟨rfl, ⟨ctr, (callGen_ok g sup ctr nm hnm).symm ▸ rfl⟩⟩
          (ih _ _ hr2)

theorem renameAssetsTargets_ok (g : Gen) (sup : Nat → String)
    (get : Target → List Asset) (set : Target → List Asset → Target) :
    ∀ (ctr : Nat) (ts : List Target) (r : Nat × List Target),
    renameAssetsTargets g sup get set ctr ts = .ok r →
    List.Forall₂ (fun t t' => ∃ as', t' = set t as' ∧
      List.Forall₂ (assetRel sup) (get t) as') ts r.2 := by
  intro ctr ts
  induction ts generalizing ctr with
  | nil =>
    intro r h
    simp only [renameAssetsTargets] at h
    cases h
    exact List.Forall₂.nil
  | cons t rest ih =>
    intro r h
    simp only [renameAssetsTargets, bind, Except.bind] at h
    split at h
    · cases h
    · rename_i r1 hr1
      split at h
      · cases h
      · rename_i r2 hr2
        cases h
        exact List.Forall₂.cons ⟨r1.2, rfl, renameAssets_ok g sup _ _ _ hr1⟩
          (ih _ _ hr2)

/-- The pointwise relation `rename_sounds` establishes between an input
target and its output: everything except the sound names is preserved,
and every sound's display name is a generator output. -/
def soundsRel (sup : Nat → String) (t t' : Target) : Prop :=
  t'.name = t.name ∧ t'.vars = t.vars ∧ t'.lists = t.lists ∧
  t'.costumes = t.costumes ∧ t'.blocks = t.blocks ∧
  List.Forall₂ (assetRel sup) t.sounds t'.sounds

theorem soundsRel_of_set (sup : Nat → String) (t t' : Target)
    (h : ∃ as', t' = { t with sounds := as' } ∧
      List.Forall₂ (assetRel sup) t.sounds as') : soundsRel sup t t' := by
  obtain ⟨as', rfl, hf⟩ := h
  exact ⟨rfl, rfl, rfl, rfl, rfl, hf⟩

/-- C7 — the claim is FALSE on the code: on a stage with a sound, the
two source versions do not mutate the same set of targets; version 2.5
renames the stage sound, version 0.1.0 leaves it alone. -/
theorem c7_counterexample :
    ((rename_sounds docSounds [("rename_sounds_to", PyVal.vstr "random_hex")]
        (fun _ => "X")).map
      (fun ts => ts.map (fun t => t.sounds.map (fun a => a.name))) =
      .ok [["X"], ["X"]]) ∧
    ((Legacy.rename_sounds docSounds [("rename_sounds_to", PyVal.vstr "random_hex")]
        (fun _ => "X")).map
      (fun ts => ts.map (fun t => t.sounds.map (fun a => a.name))) =
      .ok [["pop"], ["X"]]) ∧
    (["pop"] : List String) ≠ ["X"] := by
  refine ⟨rfl, rfl, by decide⟩

/-- C7 (amended): the 2.5 pass (`obfuscratchor.py`) renames the display
name of every sound in every target, the stage included; the 0.1.0 pass
(`Obfuscratchor.py`) leaves the stage entirely untouched and renames
only sprite sounds — so the two versions mutate the same set of targets
only when the stage has no sounds. -/
theorem c7_theorem :
    (∀ (targets : List Target) (opts : Options) (sup : Nat → String)
        (out : List Target), rename_sounds targets opts sup = .ok out →
      List.Forall₂ (soundsRel sup) targets out) ∧
    (∀ (targets : List Target) (opts : Options) (sup : Nat → String)
        (out : List Target), Legacy.rename_sounds targets opts sup = .ok out →
      out.head? = targets.head? ∧
      List.Forall₂ (soundsRel sup) targets.tail out.tail) := by
  constructor
  · intro targets opts sup out h
    simp only [rename_sounds, bind, Except.bind] at h
    split at h
    · cases h
    · rename_i p hp
      split at h
      · cases h
      · rename_i r hr
        cases h
        exact (renameAssetsTargets_ok _ sup _ _ _ _ _ hr).imp
          (fun t t' ht => soundsRel_of_set sup t t' ht)
  · intro targets opts sup out h
    simp only [Legacy.rename_sounds, bind, Except.bind] at h
    split at h
    · cases h
    · rename_i p hp
      cases targets with
      | nil =>
        simp only at h
        cases h
        exact ⟨rfl, List.Forall₂.nil⟩
      | cons t0 rest =>
        simp only [bind, Except.bind] at h
        split at h
        · cases h
        · rename_i r hr
          cases h
          refine ⟨rfl, ?_⟩
          exact (renameAssetsTargets_ok _ sup _ _ _ _ _ hr).imp
            (fun t t' ht => soundsRel_of_set sup t t' ht)

/-- Witness for `c7_theorem` at a concrete run of each version. -/
theorem c7_witness :
    (List.Forall₂ (soundsRel (fun _ => "X")) docSounds
      [{ name := "Stage", vars := [], lists := [], costumes := [],
         sounds := [{ name := "X", assetData := .vnone }], blocks := [] },
       { name := "Sprite1", vars := [], lists := [], costumes := [],
         sounds := [{ name := "X", assetData := .vnone }], blocks := [] }]) ∧
    (([({ name := "Stage", vars := [], lists := [], costumes := [],
          sounds := [{ name := "pop", assetData := .vnone }], blocks := [] } : Target),
        { name := "Sprite1", vars := [], lists := [], costumes := [],
          sounds := [{ name := "X", assetData := .vnone }], blocks := [] }].head? =
        docSounds.head?) ∧
      List.Forall₂ (soundsRel (fun _ => "X")) docSounds.tail
        [{ name := "Sprite1", vars := [], lists := [], costumes := [],
           sounds := [{ name := "X", assetData := .vnone }], blocks := [] }]) := by
  constructor
  · exact c7_theorem.1 docSounds [("rename_sounds_to", PyVal.vstr "random_hex")]
      (fun _ => "X") _ rfl
  · exact c7_theorem.2 docSounds [("rename_sounds_to", PyVal.vstr "random_hex")]
      (fun _ => "X") _ rfl


theorem mapE_ok {α β : Type} (f : α → Except PyErr β) :
    ∀ (l : List α) (l' : List β), mapE f l = .ok l' →
    List.Forall₂ (fun a b => f a = .ok b) l l' := by
  intro l
  induction l with
  | nil =>
    intro l' h
    simp only [mapE] at h
    cases h
    exact .nil
  | cons a rest ih =>
    intro l' h
    simp only [mapE, bind, Except.bind] at h
    split at h
    · cases h
    · rename_i b hb
      split at h
      · cases h
      · rename_i rest' hrest
        cases h
        exact .cons hb (ih _ hrest)

theorem convertSlot_ok (v v' : PyVal) (h : convertSlot v = .ok v') :
    v' = slotStep v := by
  cases v with
  | vint n => simp [convertSlot, pyIndex, bind, Except.bind] at h
  | vbool b => simp [convertSlot, pyIndex, bind, Except.bind] at h
  | vnone => simp [convertSlot, pyIndex, bind, Except.bind] at h
  | vdict d => simp [convertSlot, pyIndex, bind, Except.bind] at h
  | vstr s =>
    simp only [convertSlot, pyIndex, bind, Except.bind] at h
    cases hg1 : s.data.get? 1 with
    | none => rw [hg1] at h; simp at h
    | some c1 =>
      rw [hg1] at h
      have h2 : (if pyTruthy (.vstr (String.mk [c1])) = true then
          (Except.ok (.vstr s) : Except PyErr PyVal)
        else Except.ok (.vstr s)) = .ok v' := h
      rw [ite_self] at h2
      cases h2
      rfl
  | vlist l =>
    match l with
    | [] => simp [convertSlot, pyIndex, bind, Except.bind] at h
    | [a] => simp [convertSlot, pyIndex, bind, Except.bind] at h
    | a :: w :: rest =>
      have h' : (if pyTruthy w = true then
          (do
            let w0 ← pyIndex w 0
            if pyEqInt w0 4 then do
              let num ← pyIndex w 1
              match num with
              | .vstr s =>
                if regexAllDigits s then
                  setInner (.vlist (a :: w :: rest)) (pyHex (digitsToNat s))
                else pure (.vlist (a :: w :: rest))
              | _ => .error .typeError
            else pure (.vlist (a :: w :: rest)))
          else pure (.vlist (a :: w :: rest)) : Except PyErr PyVal) = .ok v' := h
      clear h
      cases w with
      | vint n =>
        by_cases hn : n = 0
        · subst hn
          simp [pyTruthy, pure, Except.pure] at h'
          cases h'
          rfl
        · simp [pyTruthy, hn, pyIndex, bind, Except.bind] at h'
      | vbool b =>
        cases b with
        | false =>
          simp [pyTruthy, pure, Except.pure] at h'
          cases h'
          rfl
        | true => simp [pyTruthy, pyIndex, bind, Except.bind] at h'
      | vnone =>
        simp [pyTruthy, pure, Except.pure] at h'
        cases h'
        rfl
      | vstr s2 =>
        by_cases ht : pyTruthy (.vstr s2) = true
        · rw [if_pos ht] at h'
          simp only [pyIndex, bind, Except.bind] at h'
          cases hg0 : s2.data.get? 0 with
          | none => rw [hg0] at h'; simp at h'
          | some c0 =>
            rw [hg0] at h'
            simp only [] at h'
            simp only [pyEqInt] at h'
            simp [pure, Except.pure] at h'
            cases h'
            rfl
        · rw [if_neg ht] at h'
          simp [pure, Except.pure] at h'
          cases h'
          rfl
      | vdict d =>
        by_cases hd : d.isEmpty
        · simp [pyTruthy, hd, pure, Except.pure] at h'
          cases h'
          rfl
        · simp [pyTruthy, hd, pyIndex, bind, Except.bind] at h'
      | vlist m =>
        match m with
        | [] =>
          simp [pyTruthy, pure, Except.pure] at h'
          cases h'
          rfl
        | k :: m2 =>
          rw [if_pos (by simp [pyTruthy])] at h'
          have h2 : (if pyEqInt k 4 then
              (do
                let num ← pyIndex (.vlist (k :: m2)) 1
                match num with
                | .vstr s =>
                  if regexAllDigits s then
                    setInner (.vlist (a :: .vlist (k :: m2) :: rest))
                      (pyHex (digitsToNat s))
                  else pure (.vlist (a :: .vlist (k :: m2) :: rest))
                | _ => .error .typeError
              : Except PyErr PyVal)
            else pure (.vlist (a :: .vlist (k :: m2) :: rest))) = .ok v' := h'
          clear h'
          by_cases hk : pyEqInt k 4 = true
          · rw [if_pos hk] at h2
            match m2 with
            | [] => simp [pyIndex, bind, Except.bind] at h2
            | num :: r =>
              have h3 : (match num with
                  | .vstr s =>
                    if regexAllDigits s then
                      setInner (.vlist (a :: .vlist (k :: num :: r) :: rest))
                        (pyHex (digitsToNat s))
                    else pure (.vlist (a :: .vlist (k :: num :: r) :: rest))
                  | _ => (.error .typeError : Except PyErr PyVal)) = .ok v' := h2
              clear h2
              cases num with
              | vstr s =>
                simp only [] at h3
                by_cases hdig : regexAllDigits s = true
                · rw [if_pos hdig] at h3
                  have h4 : (Except.ok (PyVal.vlist ((a :: .vlist (k :: .vstr s :: r) :: rest).set 1
                      (.vlist ((k :: PyVal.vstr s :: r).set 1
                        (.vstr (pyHex (digitsToNat s))))))) : Except PyErr PyVal) = .ok v' := by
                    rw [← h3]
                    simp only [setInner, setIdx, bind, Except.bind,
                      List.get?_cons_succ, List.get?_cons_zero]
                    rw [if_pos (by simp only [List.length_cons]; omega)]
                  cases h4
                  simp only [slotStep, List.set]
                  rw [if_pos (by simp [hk, hdig])]
                · rw [if_neg hdig] at h3
                  simp [pure, Except.pure] at h3
                  cases h3
                  simp only [slotStep]
                  rw [if_neg (by simp [hdig])]
              | vint n2 => simp at h3
              | vbool b2 => simp at h3
              | vnone => simp at h3
              | vlist l2 => simp at h3
              | vdict d2 => simp at h3
          · rw [if_neg hk] at h2
            simp [pure, Except.pure] at h2
            cases h2
            match m2 with
            | [] => rfl
            | .vstr s :: r =>
              simp only [slotStep]
              rw [if_neg (by simp [hk])]
            | .vint x :: r => rfl
            | .vbool x :: r => rfl
            | .vnone :: r => rfl
            | .vlist x :: r => rfl
            | .vdict x :: r => rfl


theorem convBlock_ok (b b' : Block) (h : convBlock b = .ok b') :
    b'.opcode = b.opcode ∧ b'.fields = b.fields ∧ b'.mutation = b.mutation ∧
    List.Forall₂ (fun p p' => p'.1 = p.1 ∧ p'.2 = slotStep p.2)
      b.inputs b'.inputs := by
  simp only [convBlock, bind, Except.bind] at h
  split at h
  · cases h
  · rename_i inputs' hi
    cases h
    refine ⟨rfl, rfl, rfl, ?_⟩
    refine (mapE_ok _ _ _ hi).imp ?_
    intro p p' hp
    simp only [bind, Except.bind] at hp
    split at hp
    · cases hp
    · rename_i v2 hv
      cases hp
      exact ⟨rfl, convertSlot_ok _ _ hv⟩

/-- The pointwise relation the literal-recoding pass establishes between
an input target and its output. -/
def convRel (t t' : Target) : Prop :=
  t'.name = t.name ∧ t'.vars = t.vars ∧ t'.lists = t.lists ∧
  t'.costumes = t.costumes ∧ t'.sounds = t.sounds ∧
  List.Forall₂ (fun kb kb' => kb'.1 = kb.1 ∧ (kb'.2).opcode = (kb.2).opcode ∧
    (kb'.2).fields = (kb.2).fields ∧ (kb'.2).mutation = (kb.2).mutation ∧
    List.Forall₂ (fun p p' => p'.1 = p.1 ∧ p'.2 = slotStep p.2)
      (kb.2).inputs (kb'.2).inputs) t.blocks t'.blocks

theorem convTarget_ok (t t' : Target) (h : convTarget t = .ok t') :
    convRel t t' := by
  simp only [convTarget, bind, Except.bind] at h
  split at h
  · cases h
  · rename_i blocks' hb
    cases h
    refine ⟨rfl, rfl, rfl, rfl, rfl, ?_⟩
    refine (mapE_ok _ _ _ hb).imp ?_
    intro p p' hp
    simp only [bind, Except.bind] at hp
    split at hp
    · cases hp
    · rename_i b2 hb2
      cases hp
      obtain ⟨h1, h2, h3, h4⟩ := convBlock_ok _ _ hb2
      exact ⟨rfl, h1, h2, h3, h4⟩

theorem slotStep_id (v : PyVal) (hc : slotConvertible v = false) :
    slotStep v = v := by
  unfold slotStep
  split
  · rename_i a k s r rest
    simp only [slotConvertible] at hc
    rw [if_neg]
    simp [hc]
  · rfl

theorem pyHex_data (n : Nat) :
    (pyHex n).data = '0' :: 'x' :: Nat.toDigits 16 n := by
  simp only [pyHex, String.data_append]
  rfl

theorem pyHex_not_digits (n : Nat) : regexAllDigits (pyHex n) = false := by
  have hx : 'x' ∈ digitsPart (pyHex n) := by
    unfold digitsPart
    rw [pyHex_data n]
    cases hds : Nat.toDigits 16 n with
    | nil => simp
    | cons d ds =>
      split
      · simp [List.dropLast]
      · simp
  cases hall : (digitsPart (pyHex n)).all isDecimalDigit with
  | false => simp [regexAllDigits, hall]
  | true =>
    have hdig := List.all_eq_true.mp hall 'x' hx
    exact absurd hdig (by decide)

/-- C8: with the pass enabled, every input slot whose wrapped literal
has kind code 4 and all-decimal-digit text is replaced by the
`0x`-prefixed base-16 form of its integer value; every other slot is
left unchanged; a hex form never matches the decimal pattern again; and
"255" becomes "0xff". -/
theorem c8_theorem (targets out : List Target)
    (h : convert_integers_to_hexadecimal targets true = .ok out) :
    List.Forall₂ convRel targets out ∧
    (∀ (a k : PyVal) (s : String) (r rest : List PyVal),
      pyEqInt k 4 = true → regexAllDigits s = true →
      slotStep (.vlist (a :: .vlist (k :: .vstr s :: r) :: rest)) =
        .vlist (a :: .vlist (k :: .vstr (pyHex (digitsToNat s)) :: r) :: rest)) ∧
    (∀ v, slotConvertible v = false → slotStep v = v) ∧
    (∀ s, regexAllDigits s = true →
      regexAllDigits (pyHex (digitsToNat s)) = false) ∧
    slotStep (.vlist [.vint 1, .vlist [.vint 4, .vstr "255"]]) =
      .vlist [.vint 1, .vlist [.vint 4, .vstr "0xff"]] := by
  refine ⟨?_, ?_, fun v hv => slotStep_id v hv,
    fun s _ => pyHex_not_digits (digitsToNat s), by rfl⟩
  · simp only [convert_integers_to_hexadecimal, if_true] at h
    exact (mapE_ok _ _ _ h).imp (fun t t' ht => convTarget_ok t t' ht)
  · intro a k s r rest hk hd
    simp [slotStep, hk, hd]

/-- Witness for `c8_theorem` at a concrete one-block document: the
ASCII literal "255" becomes "0xff" and the Arabic-Indic digit five
becomes "0x5". -/
theorem c8_witness :
    List.Forall₂ convRel docConv
      [{ name := "Stage", vars := [], lists := [], costumes := [], sounds := [],
         blocks := [("b1",
           { opcode := "math_number", fields := [],
             inputs := [("NUM", .vlist [.vint 1, .vlist [.vint 4, .vstr "0xff"]]),
                        ("NUM2", .vlist [.vint 1, .vlist [.vint 4, .vstr "0x5"]])],
             mutation := none })] }] ∧
    (∀ (a k : PyVal) (s : String) (r rest : List PyVal),
      pyEqInt k 4 = true → regexAllDigits s = true →
      slotStep (.vlist (a :: .vlist (k :: .vstr s :: r) :: rest)) =
        .vlist (a :: .vlist (k :: .vstr (pyHex (digitsToNat s)) :: r) :: rest)) ∧
    (∀ v, slotConvertible v = false → slotStep v = v) ∧
    (∀ s, regexAllDigits s = true →
      regexAllDigits (pyHex (digitsToNat s)) = false) ∧
    slotStep (.vlist [.vint 1, .vlist [.vint 4, .vstr "255"]]) =
      .vlist [.vint 1, .vlist [.vint 4, .vstr "0xff"]] := by
  exact c8_theorem docConv _ rfl


theorem findTokensAux_no_pct (s : List Char) (r : List Char)
    (hs : ∀ c ∈ s, c ≠ '%') :
    findTokensAux false (s ++ r) = findTokensAux false r := by
  induction s with
  | nil => rfl
  | cons c cs ih =>
    have hc : c ≠ '%' := hs c (by simp)
    have hc2 : (c == '%') = false := by simp [hc]
    simp only [List.cons_append, findTokensAux, Bool.false_and, Bool.false_eq_true,
      if_false, hc2]
    exact ih (fun c2 h2 => hs c2 (by simp [h2]))

theorem findTokensAux_shape :
    ∀ (l : List Char) (b : Bool) (t : String), t ∈ findTokensAux b l →
    ∃ c, isTokChar c = true ∧ t = tokStr c := by
  intro l
  induction l with
  | nil => intro b t ht; simp [findTokensAux] at ht
  | cons c cs ih =>
    intro b t ht
    simp only [findTokensAux] at ht
    by_cases hb : (b && isTokChar c) = true
    · rw [if_pos hb] at ht
      have hb2 : isTokChar c = true := by
        simp at hb
        exact hb.2
      rcases List.mem_cons.mp ht with h | h
      · exact ⟨c, hb2, h⟩
      · exact ih false t h
    · rw [if_neg hb] at ht
      exact ih _ t ht

theorem findTokens_join (ts : List String)
    (hts : ∀ t ∈ ts, ∃ c, isTokChar c = true ∧ t = tokStr c) :
    findTokens (pyJoinSpace ts).data = ts := by
  induction ts with
  | nil => rfl
  | cons t rest ih =>
    obtain ⟨c, hc, htok⟩ := hts t (by simp)
    cases rest with
    | nil =>
      subst htok
      show findTokensAux false (pyJoinSpace [tokStr c]).data = [tokStr c]
      have : (pyJoinSpace [tokStr c]).data = ['%', c] := rfl
      rw [this]
      simp [findTokensAux, hc]
    | cons t2 rest2 =>
      subst htok
      have hdata : (pyJoinSpace (tokStr c :: t2 :: rest2)).data =
          '%' :: c :: ' ' :: (pyJoinSpace (t2 :: rest2)).data := by
        show (tokStr c ++ " " ++ pyJoinSpace (t2 :: rest2)).data = _
        simp [tokStr, String.data_append]
      show findTokensAux false (pyJoinSpace (tokStr c :: t2 :: rest2)).data = _
      rw [hdata]
      simp only [findTokensAux, hc, Bool.false_and, Bool.false_eq_true, if_false]
      norm_num
      exact ih (fun t' ht' => hts t' (by simp [ht']))

theorem findTokensS_new (nm : String) (hnm : ∀ c ∈ nm.data, c ≠ '%') (p : String) :
    findTokensS (nm ++ " " ++ pyJoinSpace (findTokensS p)) = findTokensS p := by
  show findTokensAux false (nm ++ " " ++ pyJoinSpace (findTokensS p)).data = _
  have hsp : (" " : String).data = [' '] := rfl
  have hdata : (nm ++ " " ++ pyJoinSpace (findTokensS p)).data =
      nm.data ++ (' ' :: (pyJoinSpace (findTokensS p)).data) := by
    simp [String.data_append, hsp]
  rw [hdata, findTokensAux_no_pct _ _ hnm]
  have hstep : findTokensAux false (' ' :: (pyJoinSpace (findTokensS p)).data) =
      findTokensAux false (pyJoinSpace (findTokensS p)).data := by
    simp [findTokensAux]
  rw [hstep]
  exact findTokens_join (findTokensS p)
    (fun t ht => findTokensAux_shape p.data false t ht)

theorem alookup_dinsert {α : Type} (l : List (String × α)) (k : String) (v : α)
    (key : String) :
    alookup (dinsert l k v) key = if key = k then some v else alookup l key := by
  induction l with
  | nil =>
    by_cases h : key = k
    · subst h; simp [dinsert, alookup]
    · have h' : ¬ k = key := fun hh => h hh.symm
      simp [dinsert, alookup, h, h']
  | cons p rest ih =>
    obtain ⟨k', v'⟩ := p
    by_cases h1 : k' = k
    · subst h1
      simp only [dinsert, if_pos rfl]
      by_cases h2 : key = k'
      · subst h2; simp [alookup]
      · have h2' : ¬ k' = key := fun hh => h2 hh.symm
        simp [alookup, h2, h2']
    · simp only [dinsert, if_neg h1]
      by_cases h2 : k' = key
      · subst h2
        rw [if_neg h1]
        simp [alookup]
      · simp [alookup, h2, ih]

theorem forall₂_comp {α β γ : Type} {R : α → β → Prop} {S : β → γ → Prop}
    {T : α → γ → Prop} (hc : ∀ a b c, R a b → S b c → T a c) :
    ∀ {l1 : List α} {l2 : List β} {l3 : List γ},
    List.Forall₂ R l1 l2 → List.Forall₂ S l2 l3 → List.Forall₂ T l1 l3 := by
  intro l1 l2 l3 h1
  induction h1 generalizing l3 with
  | nil => intro h2; cases h2; exact .nil
  | cons hr hrest ih =>
    intro h2
    cases h2 with
    | cons hs hsrest => exact .cons (hc _ _ _ hr hs) (ih hsrest)

theorem forall₂_get?_left {α β : Type} {R : α → β → Prop} :
    ∀ {l : List α} {l' : List β}, List.Forall₂ R l l' →
    ∀ (i : Nat) (x : α), l.get? i = some x → ∃ y, l'.get? i = some y ∧ R x y := by
  intro l l' h
  induction h with
  | nil => intro i x hx; simp at hx
  | cons hr hrest ih =>
    intro i x hx
    cases i with
    | zero => rw [List.get?_cons_zero] at hx; cases hx; exact ⟨_, rfl, hr⟩
    | succ j =>
      rw [List.get?_cons_succ] at hx
      obtain ⟨y, hy, hxy⟩ := ih j x hx
      exact ⟨y, by rw [List.get?_cons_succ]; exact hy, hxy⟩


theorem pass1Block_ok (g : Gen) (sup : Nat → String) (ctr : Nat)
    (names : List (String × String)) (b : Block)
    (r : Nat × List (String × String) × Block)
    (h : pass1Block g sup ctr names b = .ok r) :
    (r.2.2).opcode = b.opcode ∧ (r.2.2).fields = b.fields ∧
    (r.2.2).inputs = b.inputs ∧
    (b.opcode ≠ "procedures_prototype" → r = (ctr, names, b)) ∧
    (∀ p np, alookup r.2.1 p = some np → alookup names p = some np ∨
      (b.opcode = "procedures_prototype" ∧
       (∃ m, b.mutation = some m ∧ m.proccode = p) ∧
       (∃ m', (r.2.2).mutation = some m' ∧ m'.proccode = np) ∧
       (∃ i, np = sup i ++ " " ++ pyJoinSpace (findTokensS p)))) := by
  unfold pass1Block at h
  by_cases hop : b.opcode = "procedures_prototype"
  · rw [if_pos hop] at h
    cases hm : b.mutation with
    | none => rw [hm] at h; cases h
    | some m =>
      rw [hm] at h
      simp only [bind, Except.bind] at h
      split at h
      · cases h
      · rename_i nm hnm
        cases h
        have hnm2 := callGen_ok g sup ctr nm hnm
        refine ⟨rfl, rfl, rfl, fun hc => absurd hop hc, ?_⟩
        intro p np hl
        rw [alookup_dinsert] at hl
        by_cases hp : p = m.proccode
        · rw [if_pos hp] at hl
          cases hl
          right
          refine ⟨hop, ⟨m, rfl, hp.symm⟩, ⟨_, rfl, rfl⟩, ⟨ctr, ?_⟩⟩
          rw [hnm2, hp]
        · rw [if_neg hp] at hl
          exact .inl hl
  · rw [if_neg hop] at h
    cases h
    exact ⟨rfl, rfl, rfl, fun _ => rfl, fun p np hl => .inl hl⟩

theorem pass1Blocks_ok (g : Gen) (sup : Nat → String) :
    ∀ (bs : List (String × Block)) (ctr : Nat) (names : List (String × String))
      (r : Nat × List (String × String) × List (String × Block)),
    pass1Blocks g sup ctr names bs = .ok r →
    List.Forall₂ P1BlockRel bs r.2.2 ∧
    (∀ p np, alookup r.2.1 p = some np → alookup names p = some np ∨
      ProtoBlockPair sup bs r.2.2 p np) := by
  intro bs
  induction bs with
  | nil =>
    intro ctr names r h
    simp only [pass1Blocks] at h
    cases h
    exact ⟨.nil, fun p np hl => .inl hl⟩
  | cons kb rest ih =>
    obtain ⟨k, b⟩ := kb
    intro ctr names r h
    simp only [pass1Blocks, bind, Except.bind] at h
    split at h
    · cases h
    · rename_i r1 hr1
      split at h
      · cases h
      · rename_i r2 hr2
        cases h
        obtain ⟨ho, hf, hi2, hnp, hmap1⟩ := pass1Block_ok g sup ctr names b r1 hr1
        obtain ⟨hfa, hmap2⟩ := ih r1.1 r1.2.1 r2 hr2
        constructor
        · exact .cons ⟨rfl, ho, hf, hi2,
            fun hnop => congrArg (fun x => x.2.2) (hnp hnop)⟩ hfa
        · intro p np hl
          rcases hmap2 p np hl with hl1 | hpair
          · rcases hmap1 p np hl1 with hl0 | hnew
            · exact .inl hl0
            · right
              refine ⟨0, (k, b), (k, r1.2.2), rfl, rfl, hnew.1, ?_, hnew.2.1,
                hnew.2.2.1, hnew.2.2.2⟩
              show (r1.2.2).opcode = "procedures_prototype"
              rw [ho, hnew.1]
          · right
            obtain ⟨j, kbIn, kbOut, hg1, hg2, hrest⟩ := hpair
            exact ⟨j + 1, kbIn, kbOut, by rw [List.get?_cons_succ]; exact hg1,
              by rw [List.get?_cons_succ]; exact hg2, hrest⟩

theorem pass1Targets_ok (g : Gen) (sup : Nat → String) :
    ∀ (ts : List Target) (ctr : Nat) (names : List (String × String))
      (r : Nat × List (String × String) × List Target),
    pass1Targets g sup ctr names ts = .ok r →
    List.Forall₂ P1TargetRel ts r.2.2 ∧
    (∀ p np, alookup r.2.1 p = some np → alookup names p = some np ∨
      ProtoTargetPair sup ts r.2.2 p np) := by
  intro ts
  induction ts with
  | nil =>
    intro ctr names r h
    simp only [pass1Targets] at h
    cases h
    exact ⟨.nil, fun p np hl => .inl hl⟩
  | cons t rest ih =>
    intro ctr names r h
    simp only [pass1Targets, bind, Except.bind] at h
    split at h
    · cases h
    · rename_i r1 hr1
      split at h
      · cases h
      · rename_i r2 hr2
        cases h
        obtain ⟨hfa1, hmap1⟩ := pass1Blocks_ok g sup t.blocks ctr names r1 hr1
        obtain ⟨hfa2, hmap2⟩ := ih r1.1 r1.2.1 r2 hr2
        constructor
        · exact .cons ⟨rfl, rfl, rfl, rfl, rfl, hfa1⟩ hfa2
        · intro p np hl
          rcases hmap2 p np hl with hl1 | hpair
          · rcases hmap1 p np hl1 with hl0 | hpair0
            · exact .inl hl0
            · exact .inr ⟨0, t, { t with blocks := r1.2.2 }, rfl, rfl, hpair0⟩
          · right
            obtain ⟨i, tIn, tOut, hg1, hg2, hrest⟩ := hpair
            exact ⟨i + 1, tIn, tOut, by rw [List.get?_cons_succ]; exact hg1,
              by rw [List.get?_cons_succ]; exact hg2, hrest⟩

theorem pass2Block_ok (names : List (String × String)) (b b' : Block)
    (h : pass2Block names b = .ok b') :
    b'.opcode = b.opcode ∧ b'.fields = b.fields ∧ b'.inputs = b.inputs ∧
    (b.opcode ≠ "procedures_call" → b' = b) ∧
    (b.opcode = "procedures_call" → ∃ m np, b.mutation = some m ∧
      alookup names m.proccode = some np ∧
      b'.mutation = some { m with proccode := np }) := by
  unfold pass2Block at h
  by_cases hop : b.opcode = "procedures_call"
  · rw [if_pos hop] at h
    cases hm : b.mutation with
    | none => rw [hm] at h; cases h
    | some m =>
      rw [hm] at h
      simp only [] at h
      cases hl : alookup names m.proccode with
      | none => rw [hl] at h; cases h
      | some np =>
        rw [hl] at h
        cases h
        exact ⟨rfl, rfl, rfl, fun hc => absurd hop hc,
          fun _ => ⟨m, np, rfl, hl, rfl⟩⟩
  · rw [if_neg hop] at h
    cases h
    exact ⟨rfl, rfl, rfl, fun _ => rfl, fun hc => absurd hc hop⟩

theorem pass2Target_ok (names : List (String × String)) (t t' : Target)
    (h : pass2Target names t = .ok t') : P2TargetRel names t t' := by
  simp only [pass2Target, bind, Except.bind] at h
  split at h
  · cases h
  · rename_i blocks' hb
    cases h
    refine ⟨rfl, rfl, rfl, rfl, rfl, ?_⟩
    refine (mapE_ok _ _ _ hb).imp ?_
    intro p p' hp
    simp only [bind, Except.bind] at hp
    split at hp
    · cases hp
    · rename_i b2 hb2
      cases hp
      obtain ⟨h1, h2, h3, h4, h5⟩ := pass2Block_ok names p.2 b2 hb2
      exact ⟨rfl, h1, h2, h3, h4, h5⟩


/-- C5 counterexample: the claimed token preservation fails on a
reachable run.  The `random_unicode_char_range` strategy over
`0x25`-`0x6E` with length `2` can generate exactly the code points of
`'%'` and `'n'` — the name `"%n"` (first conjunct, at a concrete pick
stream).  Renaming the matching pair `"f %n"` with that name completes
without error, but the call-site's placeholder token sequence grows from
`["%n"]` to `["%n", "%n"]`: the fresh name's own characters are
re-extracted as a placeholder by `re.findall(r'%[nsb]', ...)`. -/
theorem c5_counterexample :
    unicodeName 2 0x25 0x6E (fun i => if i = 0 then 0 else 73) =
      .ok [0x25, 0x6E] ∧
    rename_my_blocks docPct pctOpts (fun _ => "%n") =
      .ok [{ name := "Stage", vars := [], lists := [], costumes := [],
             sounds := [],
             blocks := [("p1",
               { opcode := "procedures_prototype", fields := [], inputs := [],
                 mutation := some { proccode := "%n %n",
                                    mutationRest := .vnone } }),
              ("c1",
               { opcode := "procedures_call", fields := [], inputs := [],
                 mutation := some { proccode := "%n %n",
                                    mutationRest := .vnone } })] }] ∧
    findTokensS "f %n" = ["%n"] ∧
    findTokensS "%n %n" = ["%n", "%n"] :=
  ⟨rfl, rfl, rfl, rfl⟩

/-- C5 (amended): when every generated name is free of the character
`'%'`, and every call-site proccode matches a prototype before the pass
(implied here by the pass completing), after `rename_my_blocks` every
call-site's placeholder token sequence is unchanged in count and order,
and every call-site's proccode equals the post-pass proccode of a
prototype whose pre-pass proccode matched it.  Without the `'%'`-free
condition the token preservation can fail. -/
theorem c5_theorem (targets : List Target) (opts : Options) (sup : Nat → String)
    (out : List Target) (h : rename_my_blocks targets opts sup = .ok out)
    (hsup : ∀ i, ∀ c ∈ (sup i).data, c ≠ '%') :
    List.Forall₂ (C5TargetRel sup targets out) targets out := by
  simp only [rename_my_blocks, bind, Except.bind] at h
  split at h
  · cases h
  · rename_i pg hpg
    obtain ⟨o, g⟩ := pg
    simp only [] at h
    split at h
    · cases h
    · rename_i r1 hr1
      split at h
      · cases h
      · rename_i out0 hout
        simp only [pure, Except.pure, Except.ok.injEq] at h
        subst h
        obtain ⟨hF1, hM⟩ := pass1Targets_ok g sup targets 0 [] r1 hr1
        have hF2 : List.Forall₂ (P2TargetRel r1.2.1) r1.2.2 out0 :=
          (mapE_ok _ _ _ hout).imp (fun t t' ht => pass2Target_ok _ t t' ht)
        refine forall₂_comp ?_ hF1 hF2
        intro tIn tMid tOut h1 h2
        obtain ⟨hn1, hv1, hl1, hc1, hs1, hb1⟩ := h1
        obtain ⟨hn2, hv2, hl2, hc2, hs2, hb2⟩ := h2
        refine ⟨by rw [hn2, hn1], by rw [hv2, hv1], by rw [hl2, hl1],
          by rw [hc2, hc1], by rw [hs2, hs1], ?_⟩
        refine forall₂_comp ?_ hb1 hb2
        intro kb kbMid kbOut hbb1 hbb2
        obtain ⟨hk1, ho1, hf1, hi1, hnc1⟩ := hbb1
        obtain ⟨hk2, ho2, hf2, hi2, hnc2, hcc2⟩ := hbb2
        refine ⟨by rw [hk2, hk1], by rw [ho2, ho1], ?_⟩
        intro hcall m m' hm hm'
        have hne : ("procedures_call" : String) ≠ "procedures_prototype" := by decide
        have hmid : kbMid.2 = kb.2 := hnc1 (by rw [hcall]; exact hne)
        have hcall2 : (kbMid.2).opcode = "procedures_call" := by rw [hmid, hcall]
        obtain ⟨m1, np, hm1, hlk, hm'2⟩ := hcc2 hcall2
        rw [hmid, hm] at hm1
        injection hm1 with hm1e
        subst hm1e
        rw [hm'] at hm'2
        injection hm'2 with hm'e
        subst hm'e
        rcases hM m.proccode np hlk with habs | hpair
        · simp [alookup] at habs
        · obtain ⟨i2, tIn2, tMid2, hgt1, hgt2, j2, kbIn2, kbMid2, hgb1, hgb2,
            hproto1, hproto2, hmIn, hmOut, i3, hform⟩ := hpair
          constructor
          · show findTokensS np = findTokensS m.proccode
            rw [hform]
            exact findTokensS_new (sup i3) (hsup i3) m.proccode
          · obtain ⟨tOut2, hgo, hrel2⟩ := forall₂_get?_left hF2 i2 tMid2 hgt2
            obtain ⟨kbOut2, hgb3, hrelb2⟩ :=
              forall₂_get?_left hrel2.2.2.2.2.2 j2 kbMid2 hgb2
            have hne2 : (kbMid2.2).opcode ≠ "procedures_call" := by
              rw [hproto2]; decide
            have hsame : kbOut2.2 = kbMid2.2 := hrelb2.2.2.2.2.1 hne2
            exact ⟨i2, tIn2, tOut2, hgt1, hgo, j2, kbIn2, kbOut2, hgb1, hgb3,
              hproto1, by rw [hsame]; exact hproto2, hmIn,
              by rw [hsame]; exact hmOut, i3, hform⟩

/-- Witness for `c5_theorem` at a concrete prototype/call document. -/
theorem c5_witness :
    List.Forall₂ (C5TargetRel (fun _ => "NEWNAME") docProc
      [{ name := "Stage", vars := [], lists := [], costumes := [], sounds := [],
         blocks := [("p1",
           { opcode := "procedures_prototype", fields := [], inputs := [],
             mutation := some { proccode := "NEWNAME %n %s",
                                mutationRest := .vnone } }),
          ("c1",
           { opcode := "procedures_call", fields := [], inputs := [],
             mutation := some { proccode := "NEWNAME %n %s",
                                mutationRest := .vnone } })] }]) docProc
      [{ name := "Stage", vars := [], lists := [], costumes := [], sounds := [],
         blocks := [("p1",
           { opcode := "procedures_prototype", fields := [], inputs := [],
             mutation := some { proccode := "NEWNAME %n %s",
                                mutationRest := .vnone } }),
          ("c1",
           { opcode := "procedures_call", fields := [], inputs := [],
             mutation := some { proccode := "NEWNAME %n %s",
                                mutationRest := .vnone } })] }] := by
  refine c5_theorem docProc [("rename_my_blocks_to", PyVal.vstr "random_hex")]
    (fun _ => "NEWNAME") _ rfl ?_
  intro i
  show ∀ c ∈ ("NEWNAME" : String).data, c ≠ '%'
  decide

theorem obfuscateCore_myblocks_error (targets : List Target) (opts : Options)
    (sups : Nat → Nat → String) (e : PyErr)
    (h : rename_my_blocks targets opts (sups 6) = .error e) :
    obfuscateCore targets [("rename_my_blocks", .vdict opts)] sups = .error e := by
  have step : dispatchAll sups targets [("rename_my_blocks", PyVal.vdict opts)]
      optionNames 0 =
      Except.bind (rename_my_blocks targets opts (sups 6)) (fun t' =>
        dispatchAll sups t' [] [("convert_integers_to_hexadecimal", PyType.tbool)]
          7) := rfl
  simp only [obfuscateCore, bind, Except.bind]
  rw [step, h]
  rfl

/-- C4: a document containing a `procedures_call` block whose proccode
matches no `procedures_prototype` proccode makes `rename_my_blocks`
raise an error (it never silently skips the call-site), and the overall
transform errors out without producing an output document. -/
theorem c4_theorem (targets : List Target) (opts : Options) (sup : Nat → String)
    (hdangle : ∃ t ∈ targets, ∃ kb ∈ t.blocks,
      ((kb : String × Block).2).opcode = "procedures_call" ∧
      ∃ m, ((kb : String × Block).2).mutation = some m ∧
        ∀ t' ∈ targets, ∀ kb' ∈ t'.blocks,
          ((kb' : String × Block).2).opcode = "procedures_prototype" →
          ∀ m', ((kb' : String × Block).2).mutation = some m' →
            m'.proccode ≠ m.proccode) :
    (∃ e, rename_my_blocks targets opts sup = .error e) ∧
    (∀ sups : Nat → Nat → String,
      ∃ e, obfuscateCore targets [("rename_my_blocks", .vdict opts)] sups =
        .error e) := by
  have main : ∀ (sup2 : Nat → String),
      ∃ e, rename_my_blocks targets opts sup2 = .error e := by
    intro sup2
    cases hres : rename_my_blocks targets opts sup2 with
    | error e => exact ⟨e, rfl⟩
    | ok out =>
      exfalso
      simp only [rename_my_blocks, bind, Except.bind] at hres
      split at hres
      · cases hres
      · rename_i pg hpg
        obtain ⟨o, g⟩ := pg
        simp only [] at hres
        split at hres
        · cases hres
        · rename_i r1 hr1
          split at hres
          · cases hres
          · rename_i out0 hout
            obtain ⟨t, ht, kb, hkb, hcall, m, hm, hnoproto⟩ := hdangle
            obtain ⟨hF1, hM⟩ := pass1Targets_ok g sup2 targets 0 [] r1 hr1
            obtain ⟨i, hgi⟩ := List.mem_iff_get?.mp ht
            obtain ⟨tMid, hgmid, hrel1⟩ := forall₂_get?_left hF1 i t hgi
            obtain ⟨j, hgj⟩ := List.mem_iff_get?.mp hkb
            obtain ⟨kbMid, hgbmid, hrelb1⟩ :=
              forall₂_get?_left hrel1.2.2.2.2.2 j kb hgj
            have hmid : kbMid.2 = kb.2 := hrelb1.2.2.2.2 (by rw [hcall]; decide)
            have hF2 := mapE_ok _ _ _ hout
            obtain ⟨tOut, hgout, hp2⟩ := forall₂_get?_left hF2 i tMid hgmid
            simp only [pass2Target, bind, Except.bind] at hp2
            split at hp2
            · cases hp2
            · rename_i blocks2 hbl
              have hFb := mapE_ok _ _ _ hbl
              obtain ⟨kb2, hgb2, hpb⟩ := forall₂_get?_left hFb j kbMid hgbmid
              have hpb2 : (do
                  let b' ← pass2Block r1.2.1 kbMid.2
                  pure (kbMid.1, b') : Except PyErr (String × Block)) = .ok kb2 := hpb
              simp only [bind, Except.bind] at hpb2
              split at hpb2
              · cases hpb2
              · rename_i b2 hb2
                obtain ⟨_, _, _, _, hcc⟩ := pass2Block_ok _ _ _ hb2
                have hcall2 : (kbMid.2).opcode = "procedures_call" := by
                  rw [hmid, hcall]
                obtain ⟨m1, np, hm1, hlk, _⟩ := hcc hcall2
                rw [hmid, hm] at hm1
                injection hm1 with hm1e
                subst hm1e
                rcases hM m.proccode np hlk with habs | hpair
                · simp [alookup] at habs
                · obtain ⟨i2, tIn2, tMid2, hgt1, hgt2, j2, kbIn2, kbMid2, hgb1a,
                    hgb2a, hproto1, hproto2a, ⟨m2, hm2, hm2p⟩, hrest1, hrest2⟩ := hpair
                  exact hnoproto tIn2 (List.get?_mem hgt1) kbIn2
                    (List.get?_mem hgb1a) hproto1 m2 hm2 hm2p
  refine ⟨main sup, fun sups => ?_⟩
  obtain ⟨e, he⟩ := main (sups 6)
  exact ⟨e, obfuscateCore_myblocks_error targets opts sups e he⟩

/-- Witness for `c4_theorem` at a concrete dangling-call document. -/
theorem c4_witness :
    (∃ e, rename_my_blocks docDangling
        [("rename_my_blocks_to", PyVal.vstr "random_hex")] (fun _ => "Z") =
      .error e) ∧
    (∀ sups : Nat → Nat → String, ∃ e, obfuscateCore docDangling
        [("rename_my_blocks",
          PyVal.vdict [("rename_my_blocks_to", PyVal.vstr "random_hex")])] sups =
      .error e) := by
  refine c4_theorem docDangling _ (fun _ => "Z") ?_
  refine ⟨danglingTarget, by simp [docDangling], ("c1", callBlock),
    by simp [danglingTarget], rfl,
    { proccode := "do thing %n %s", mutationRest := .vnone }, rfl, ?_⟩
  intro t' ht' kb' hkb' hop m' hm'
  simp only [docDangling, List.mem_singleton] at ht'
  subst ht'
  simp only [danglingTarget, List.mem_singleton] at hkb'
  subst hkb'
  simp [callBlock] at hop


theorem alookup_mem {α : Type} :
    ∀ (l : List (String × α)) (k : String) (v : α),
    alookup l k = some v → (k, v) ∈ l := by
  intro l
  induction l with
  | nil => intro k v h; simp [alookup] at h
  | cons p rest ih =>
    intro k v h
    simp only [alookup] at h
    by_cases hk : p.1 = k
    · rw [if_pos hk] at h
      cases h
      rw [← hk]
      simp
    · rw [if_neg hk] at h
      exact List.mem_cons_of_mem _ (ih k v h)

theorem alookup_eq_of_mem {α : Type} :
    ∀ (l : List (String × α)) (p : String × α),
    p ∈ l → (l.map Prod.fst).Nodup → alookup l p.1 = some p.2 := by
  intro l
  induction l with
  | nil => intro p hp _; simp at hp
  | cons q rest ih =>
    intro p hp hnd
    simp only [List.map_cons, List.nodup_cons] at hnd
    rcases List.mem_cons.mp hp with h | h
    · subst h
      simp [alookup]
    · have hne : q.1 ≠ p.1 := by
        intro he
        exact hnd.1 (he ▸ List.mem_map_of_mem Prod.fst h)
      simp only [alookup, if_neg hne]
      exact ih p h hnd.2

theorem alookup_none {α : Type} :
    ∀ (l : List (String × α)) (k : String),
    alookup l k = none → k ∉ l.map Prod.fst := by
  intro l
  induction l with
  | nil => intro k _ hk; simp at hk
  | cons p rest ih =>
    intro k h hk
    simp only [alookup] at h
    by_cases hp : p.1 = k
    · rw [if_pos hp] at h; cases h
    · rw [if_neg hp] at h
      rcases List.mem_cons.mp hk with h2 | h2
      · exact hp h2.symm
      · exact ih k h h2

theorem forall₂_imp_mem {α β : Type} {R S : α → β → Prop} :
    ∀ {l : List α} {l' : List β}, List.Forall₂ R l l' →
    (∀ a ∈ l, ∀ b, R a b → S a b) → List.Forall₂ S l l' := by
  intro l l' h
  induction h with
  | nil => intro _; exact .nil
  | cons hr hrest ih =>
    intro hs
    exact .cons (hs _ (by simp) _ hr)
      (ih (fun a ha b hab => hs a (List.mem_cons_of_mem _ ha) b hab))

theorem forall₂_comp_mem {α β γ : Type} {R : α → β → Prop} {S : β → γ → Prop}
    {T : α → γ → Prop} :
    ∀ {l1 : List α} {l2 : List β} {l3 : List γ},
    List.Forall₂ R l1 l2 → List.Forall₂ S l2 l3 →
    (∀ a ∈ l1, ∀ b c, R a b → S b c → T a c) → List.Forall₂ T l1 l3 := by
  intro l1 l2 l3 h1
  induction h1 generalizing l3 with
  | nil => intro h2 _; cases h2; exact .nil
  | cons hr hrest ih =>
    intro h2 hc
    cases h2 with
    | cons hs hsrest =>
      exact .cons (hc _ (by simp) _ _ hr hs)
        (ih hsrest (fun a ha b c hab hbc => hc a (List.mem_cons_of_mem _ ha) b c hab hbc))

theorem forall₂_map_eq {α β γ : Type} {R : α → β → Prop} {f : α → γ} {g : β → γ} :
    ∀ {l : List α} {l' : List β}, List.Forall₂ R l l' →
    (∀ a b, R a b → g b = f a) → l'.map g = l.map f := by
  intro l l' h
  induction h with
  | nil => intro _; rfl
  | cons hr hrest ih =>
    intro hfg
    simp only [List.map_cons]
    rw [hfg _ _ hr, ih hfg]

theorem dinsert_forall₂ {α : Type} :
    ∀ (l : List (String × α)) (k : String) (v : α),
    (∃ w, alookup l k = some w) → (l.map Prod.fst).Nodup →
    List.Forall₂ (fun p p' => p'.1 = p.1 ∧
      p'.2 = if p.1 = k then v else p.2) l (dinsert l k v) := by
  intro l
  induction l with
  | nil => intro k v hw _; simp [alookup] at hw
  | cons q rest ih =>
    intro k v hw hnd
    obtain ⟨q1, q2⟩ := q
    simp only [List.map_cons, List.nodup_cons] at hnd
    by_cases hk : q1 = k
    · subst hk
      simp only [dinsert, if_pos rfl]
      refine .cons ⟨rfl, by simp⟩ ?_
      refine List.forall₂_same.mpr ?_
      intro p hp
      refine ⟨rfl, ?_⟩
      rw [if_neg]
      intro he
      exact hnd.1 (he ▸ List.mem_map_of_mem Prod.fst hp)
    · simp only [dinsert, if_neg hk]
      obtain ⟨w, hwl⟩ := hw
      simp only [alookup, if_neg hk] at hwl
      exact .cons ⟨rfl, by simp [hk]⟩ (ih k v ⟨w, hwl⟩ hnd.2)

theorem applyMenu_nomatch (names : List (String × String)) (b : Block)
    (mf : String × String) (h : b.opcode ≠ mf.1) :
    applyMenu names b mf = .ok b := by
  unfold applyMenu
  rw [if_neg h]

theorem applyMenu_opcode (names : List (String × String)) (b : Block)
    (mf : String × String) (b' : Block) (h : applyMenu names b mf = .ok b') :
    b'.opcode = b.opcode := by
  unfold applyMenu at h
  by_cases hop : b.opcode = mf.1
  · rw [if_pos hop] at h
    cases halk : alookup b.fields mf.2 with
    | none => rw [halk] at h; cases h
    | some fv =>
      rw [halk] at h
      cases fv with
      | nil => cases h
      | cons h0 tl =>
        simp only [] at h
        cases h0 with
        | vstr s =>
          simp only [] at h
          cases hns : alookup names s with
          | none => rw [hns] at h; cases h; rfl
          | some ns => rw [hns] at h; cases h; rfl
        | vint n => cases h; rfl
        | vbool x => cases h; rfl
        | vnone => cases h; rfl
        | vlist x => cases h; rfl
        | vdict x => cases h; rfl
  · rw [if_neg hop] at h
    cases h
    rfl

theorem applyMenu_match_ok (names : List (String × String)) (b : Block)
    (fn : String) (b' : Block)
    (hnodup : (b.fields.map Prod.fst).Nodup)
    (h : applyMenu names b (b.opcode, fn) = .ok b') :
    b'.opcode = b.opcode ∧ b'.inputs = b.inputs ∧ b'.mutation = b.mutation ∧
    List.Forall₂ (fun f f' => f'.1 = f.1 ∧
      f'.2 = if f.1 = fn then menuNewVal names f.2 else f.2)
      b.fields b'.fields := by
  unfold applyMenu at h
  rw [if_pos rfl] at h
  cases halk : alookup b.fields fn with
  | none => rw [halk] at h; cases h
  | some fv =>
    rw [halk] at h
    cases fv with
    | nil => cases h
    | cons h0 tl =>
      simp only [] at h
      have hmemfv : (fn, h0 :: tl) ∈ b.fields := alookup_mem _ _ _ halk
      have hid : ∀ (hb : b' = b),
          List.Forall₂ (fun f f' => f'.1 = f.1 ∧
            f'.2 = if f.1 = fn then menuNewVal names f.2 else f.2)
            b.fields b'.fields → True := fun _ _ => trivial
      cases h0 with
      | vstr s =>
        simp only [] at h
        cases hns : alookup names s with
        | none =>
          rw [hns] at h
          cases h
          refine ⟨rfl, rfl, rfl, ?_⟩
          refine List.forall₂_same.mpr ?_
          intro f hf
          refine ⟨rfl, ?_⟩
          by_cases hffn : f.1 = fn
          · have : f.2 = .vstr s :: tl := by
              have h1 := alookup_eq_of_mem b.fields f hf hnodup
              rw [hffn, halk] at h1
              exact (Option.some.inj h1).symm
            rw [if_pos hffn, this]
            simp [menuNewVal, hns]
          · rw [if_neg hffn]
        | some ns =>
          rw [hns] at h
          cases h
          refine ⟨rfl, rfl, rfl, ?_⟩
          have hstep := dinsert_forall₂ b.fields fn (PyVal.vstr ns :: tl)
            ⟨_, halk⟩ hnodup
          refine forall₂_imp_mem hstep ?_
          intro f hf f' hff
          refine ⟨hff.1, ?_⟩
          rw [hff.2]
          by_cases hffn : f.1 = fn
          · have : f.2 = .vstr s :: tl := by
              have h1 := alookup_eq_of_mem b.fields f hf hnodup
              rw [hffn, halk] at h1
              exact (Option.some.inj h1).symm
            rw [if_pos hffn, if_pos hffn, this]
            simp [menuNewVal, hns]
          · rw [if_neg hffn, if_neg hffn]
      | vint n =>
        cases h
        refine ⟨rfl, rfl, rfl, ?_⟩
        refine List.forall₂_same.mpr ?_
        intro f hf
        refine ⟨rfl, ?_⟩
        by_cases hffn : f.1 = fn
        · have : f.2 = .vint n :: tl := by
            have h1 := alookup_eq_of_mem b.fields f hf hnodup
            rw [hffn, halk] at h1
            exact (Option.some.inj h1).symm
          rw [if_pos hffn, this]
          simp [menuNewVal]
        · rw [if_neg hffn]
      | vbool x =>
        cases h
        refine ⟨rfl, rfl, rfl, ?_⟩
        refine List.forall₂_same.mpr ?_
        intro f hf
        refine ⟨rfl, ?_⟩
        by_cases hffn : f.1 = fn
        · have : f.2 = .vbool x :: tl := by
            have h1 := alookup_eq_of_mem b.fields f hf hnodup
            rw [hffn, halk] at h1
            exact (Option.some.inj h1).symm
          rw [if_pos hffn, this]
          simp [menuNewVal]
        · rw [if_neg hffn]
      | vnone =>
        cases h
        refine ⟨rfl, rfl, rfl, ?_⟩
        refine List.forall₂_same.mpr ?_
        intro f hf
        refine ⟨rfl, ?_⟩
        by_cases hffn : f.1 = fn
        · have : f.2 = .vnone :: tl := by
            have h1 := alookup_eq_of_mem b.fields f hf hnodup
            rw [hffn, halk] at h1
            exact (Option.some.inj h1).symm
          rw [if_pos hffn, this]
          simp [menuNewVal]
        · rw [if_neg hffn]
      | vlist x =>
        cases h
        refine ⟨rfl, rfl, rfl, ?_⟩
        refine List.forall₂_same.mpr ?_
        intro f hf
        refine ⟨rfl, ?_⟩
        by_cases hffn : f.1 = fn
        · have : f.2 = .vlist x :: tl := by
            have h1 := alookup_eq_of_mem b.fields f hf hnodup
            rw [hffn, halk] at h1
            exact (Option.some.inj h1).symm
          rw [if_pos hffn, this]
          simp [menuNewVal]
        · rw [if_neg hffn]
      | vdict x =>
        cases h
        refine ⟨rfl, rfl, rfl, ?_⟩
        refine List.forall₂_same.mpr ?_
        intro f hf
        refine ⟨rfl, ?_⟩
        by_cases hffn : f.1 = fn
        · have : f.2 = .vdict x :: tl := by
            have h1 := alookup_eq_of_mem b.fields f hf hnodup
            rw [hffn, halk] at h1
            exact (Option.some.inj h1).symm
          rw [if_pos hffn, this]
          simp [menuNewVal]
        · rw [if_neg hffn]


theorem menuFold_notmem (names : List (String × String)) :
    ∀ (L : List (String × String)) (b : Block),
    b.opcode ∉ L.map Prod.fst → menuFold names b L = .ok b := by
  intro L
  induction L with
  | nil => intro b _; rfl
  | cons mf rest ih =>
    intro b hnot
    have hne : b.opcode ≠ mf.1 := by
      intro he
      exact hnot (by simp [he])
    simp only [menuFold, bind, Except.bind, applyMenu_nomatch names b mf hne]
    exact ih b (fun hmem => hnot (List.mem_cons_of_mem _ hmem))

theorem menuFold_found (names : List (String × String)) :
    ∀ (L : List (String × String)) (b : Block) (fn : String),
    (L.map Prod.fst).Nodup → alookup L b.opcode = some fn →
    menuFold names b L = applyMenu names b (b.opcode, fn) := by
  intro L
  induction L with
  | nil => intro b fn _ halk; simp [alookup] at halk
  | cons mf rest ih =>
    intro b fn hnd halk
    obtain ⟨k, v⟩ := mf
    simp only [List.map_cons, List.nodup_cons] at hnd
    simp only [alookup] at halk
    by_cases hk : k = b.opcode
    · have hv : v = fn := by
        rw [if_pos hk] at halk
        exact Option.some.inj halk
      subst hv
      subst hk
      cases happ : applyMenu names b (b.opcode, v) with
      | error e =>
        simp only [menuFold, bind, Except.bind, happ]
      | ok b1 =>
        simp only [menuFold, bind, Except.bind, happ]
        have hop := applyMenu_opcode names b (b.opcode, v) b1 happ
        exact menuFold_notmem names rest b1 (by rw [hop]; exact hnd.1)
    · rw [if_neg hk] at halk
      have hne : b.opcode ≠ k := fun he => hk he.symm
      simp only [menuFold, bind, Except.bind, applyMenu_nomatch names b (k, v) hne]
      exact ih b fn hnd.2 halk

theorem menus_nodup : (menus.map Prod.fst).Nodup := by decide

theorem mem_menus_iff (op fn f1 : String) (halk : alookup menus op = some fn) :
    (op, f1) ∈ menus ↔ f1 = fn := by
  constructor
  · intro hmem
    have := alookup_eq_of_mem menus (op, f1) hmem menus_nodup
    rw [halk] at this
    exact (Option.some.inj this).symm
  · intro he
    subst he
    exact alookup_mem _ _ _ halk

theorem menuFold_menus_ok (names : List (String × String)) (b b' : Block)
    (hnodup : (b.fields.map Prod.fst).Nodup)
    (h : menuFold names b menus = .ok b') :
    b'.opcode = b.opcode ∧ b'.inputs = b.inputs ∧ b'.mutation = b.mutation ∧
    List.Forall₂ (fun f f' => f'.1 = f.1 ∧
      f'.2 = if (b.opcode, f.1) ∈ menus then menuNewVal names f.2 else f.2)
      b.fields b'.fields := by
  cases halk : alookup menus b.opcode with
  | none =>
    have hnot := alookup_none menus b.opcode halk
    rw [menuFold_notmem names menus b hnot] at h
    cases h
    refine ⟨rfl, rfl, rfl, ?_⟩
    refine List.forall₂_same.mpr ?_
    intro f hf
    refine ⟨rfl, ?_⟩
    rw [if_neg]
    intro hmem
    exact hnot (List.mem_map_of_mem Prod.fst hmem)
  | some fn =>
    rw [menuFold_found names menus b fn menus_nodup halk] at h
    obtain ⟨h1, h2, h3, h4⟩ := applyMenu_match_ok names b fn b' hnodup h
    refine ⟨h1, h2, h3, ?_⟩
    refine h4.imp ?_
    intro f f' hff
    refine ⟨hff.1, ?_⟩
    rw [hff.2]
    by_cases hc : f.1 = fn
    · rw [if_pos hc, if_pos ((mem_menus_iff b.opcode fn f.1 halk).mpr hc)]
    · rw [if_neg hc, if_neg (fun hmem => hc ((mem_menus_iff b.opcode fn f.1 halk).mp hmem))]

theorem rewriteBlocks_ok (names : List (String × String))
    (bs bs' : List (String × Block))
    (hnd : ∀ kb ∈ bs, (((kb : String × Block).2).fields.map Prod.fst).Nodup)
    (h : rewriteBlocks names bs = .ok bs') :
    List.Forall₂ (menuBlockRel names) bs bs' := by
  refine forall₂_imp_mem (mapE_ok _ _ _ h) ?_
  intro kb hkb kb' hk
  have hk2 : (do
      let b' ← menuFold names kb.2 menus
      pure (kb.1, b') : Except PyErr (String × Block)) = .ok kb' := hk
  simp only [bind, Except.bind] at hk2
  split at hk2
  · cases hk2
  · rename_i b2 hb2
    cases hk2
    obtain ⟨h1, h2, h3, h4⟩ := menuFold_menus_ok names kb.2 b2 (hnd kb hkb) hb2
    exact ⟨rfl, h1, h2, h3, h4⟩

theorem buildSpriteNames_ok (g : Gen) (sup : Nat → String) :
    ∀ (ts : List Target) (ctr : Nat) (names : List (String × String))
      (r : List (String × String) × List Target),
    buildSpriteNames g sup ctr names ts = .ok r →
    r.1 = spriteNamesAux sup ctr names ts ∧
    r.2.map Target.name = (List.range ts.length).map (fun j => sup (ctr + j)) ∧
    List.Forall₂ (fun t t' => t'.vars = t.vars ∧ t'.lists = t.lists ∧
      t'.costumes = t.costumes ∧ t'.sounds = t.sounds ∧ t'.blocks = t.blocks)
      ts r.2 := by
  intro ts
  induction ts with
  | nil =>
    intro ctr names r h
    simp only [buildSpriteNames] at h
    cases h
    exact ⟨rfl, rfl, .nil⟩
  | cons t rest ih =>
    intro ctr names r h
    simp only [buildSpriteNames, bind, Except.bind] at h
    split at h
    · cases h
    · rename_i nm hnm
      have hnm2 := callGen_ok g sup ctr nm hnm
      subst hnm2
      split at h
      · cases h
      · rename_i r2 hr2
        cases h
        obtain ⟨he1, he2, he3⟩ := ih (ctr + 1) (dinsert names t.name (sup ctr)) r2 hr2
        refine ⟨?_, ?_, .cons ⟨rfl, rfl, rfl, rfl, rfl⟩ he3⟩
        · rw [he1]
          rfl
        · simp only [List.map_cons, he2, List.length_cons,
            List.range_succ_eq_map, List.map_map]
          congr 1
          refine List.map_congr_left ?_
          intro j _
          show sup (ctr + 1 + j) = sup (ctr + (j + 1))
          congr 1
          omega

theorem spriteNamesAux_keys (sup : Nat → String) :
    ∀ (ts : List Target) (ctr : Nat) (names : List (String × String)) (s : String),
    (alookup (spriteNamesAux sup ctr names ts) s).isSome ↔
      (alookup names s).isSome ∨ s ∈ ts.map Target.name := by
  intro ts
  induction ts with
  | nil =>
    intro ctr names s
    simp [spriteNamesAux]
  | cons t rest ih =>
    intro ctr names s
    simp only [spriteNamesAux, List.map_cons, List.mem_cons]
    rw [ih]
    rw [alookup_dinsert]
    by_cases hs : s = t.name
    · simp [hs]
    · simp [hs]


/-- C6: `rename_sprites` keeps the number and order of targets; the
rename map's keys are exactly the pre-pass sprite names; the stage keeps
its name while sprite `i` is renamed to the `i`-th generator output; and
in every block of every target exactly the six menu opcode/field pairs
are rewritten — a field value that is a pre-pass sprite name becomes
that sprite's new name, any other value (e.g. `mouse-pointer`) is left
untouched. -/
theorem c6_theorem (targets : List Target) (opts : Options) (sup : Nat → String)
    (out : List Target) (h : rename_sprites targets opts sup = .ok out)
    (hnodup : ∀ t ∈ targets, ∀ kb ∈ t.blocks,
      ((((kb : String × Block).2).fields.map Prod.fst)).Nodup) :
    out.length = targets.length ∧
    (∀ s, (alookup (spriteNamesMap targets sup) s).isSome ↔
      s ∈ (targets.drop 1).map Target.name) ∧
    out.map Target.name =
      (targets.map Target.name).take 1 ++
        (List.range (targets.length - 1)).map sup ∧
    List.Forall₂ (C6TargetRel (spriteNamesMap targets sup)) targets out := by
  have hkeys : ∀ s, (alookup (spriteNamesMap targets sup) s).isSome ↔
      s ∈ (targets.drop 1).map Target.name := by
    intro s
    unfold spriteNamesMap
    rw [spriteNamesAux_keys]
    simp [alookup]
  simp only [rename_sprites, bind, Except.bind] at h
  split at h
  · cases h
  · rename_i pg hpg
    obtain ⟨o, g⟩ := pg
    simp only [] at h
    cases targets with
    | nil =>
      simp only [] at h
      cases h
      exact ⟨rfl, hkeys, rfl, .nil⟩
    | cons t0 rest =>
      simp only [] at h
      split at h
      · cases h
      · rename_i r hr
        split at h
        · cases h
        · rename_i out0 hout
          simp only [pure, Except.pure, Except.ok.injEq] at h
          subst h
          obtain ⟨hb1, hb2, hb3⟩ := buildSpriteNames_ok g sup rest 0 [] r hr
          have hr1 : r.1 = spriteNamesMap (t0 :: rest) sup := hb1
          have hF2 := mapE_ok _ _ _ hout
          have hMid : List.Forall₂ (fun t t' => t'.vars = t.vars ∧
              t'.lists = t.lists ∧ t'.costumes = t.costumes ∧
              t'.sounds = t.sounds ∧ t'.blocks = t.blocks)
              (t0 :: rest) (t0 :: r.2) := .cons ⟨rfl, rfl, rfl, rfl, rfl⟩ hb3
          have hFin : List.Forall₂ (C6TargetRel (spriteNamesMap (t0 :: rest) sup))
              (t0 :: rest) out0 := by
            refine forall₂_comp_mem hMid hF2 ?_
            intro t ht tMid tOut h1 h2
            have h2' : (do
                let bs ← rewriteBlocks r.1 tMid.blocks
                pure { tMid with blocks := bs } : Except PyErr Target) = .ok tOut := h2
            simp only [bind, Except.bind] at h2'
            split at h2'
            · cases h2'
            · rename_i bs hbs
              cases h2'
              obtain ⟨hv, hl, hc, hs2, hbl⟩ := h1
              refine ⟨hv, hl, hc, hs2, ?_⟩
              rw [← hr1]
              rw [hbl] at hbs
              exact rewriteBlocks_ok r.1 t.blocks bs (hnodup t ht) hbs
          have hname : out0.map Target.name = (t0 :: r.2).map Target.name := by
            refine forall₂_map_eq hF2 ?_
            intro a b hab
            have hab' : (do
                let bs ← rewriteBlocks r.1 a.blocks
                pure { a with blocks := bs } : Except PyErr Target) = .ok b := hab
            simp only [bind, Except.bind] at hab'
            split at hab'
            · cases hab'
            · cases hab'
              rfl
          have hname2 : (t0 :: r.2).map Target.name =
              t0.name :: (List.range rest.length).map sup := by
            simp only [List.map_cons, hb2]
            congr 1
            refine List.map_congr_left ?_
            intro j _
            show sup (0 + j) = sup j
            congr 1
            omega
          refine ⟨hFin.length_eq.symm, hkeys, ?_, hFin⟩
          rw [hname, hname2]
          rfl

/-- Witness for `c6_theorem` at a concrete document: the goto-menu field
referencing `Cat` is rewritten to the new sprite name, the
`mouse-pointer` field is untouched. -/
theorem c6_witness :
    ([{ name := "Stage", vars := [], lists := [], costumes := [], sounds := [],
        blocks := [("b1",
          { opcode := "motion_goto_menu",
            fields := [("TO", [.vstr "S"])], inputs := [], mutation := none }),
         ("b2",
          { opcode := "sensing_touchingobjectmenu",
            fields := [("TOUCHINGOBJECTMENU", [.vstr "mouse-pointer"])],
            inputs := [], mutation := none })] },
      { name := "S", vars := [], lists := [], costumes := [], sounds := [],
        blocks := [] }] : List Target).length = docSprites.length ∧
    (∀ s, (alookup (spriteNamesMap docSprites (fun _ => "S")) s).isSome ↔
      s ∈ (docSprites.drop 1).map Target.name) ∧
    ([{ name := "Stage", vars := [], lists := [], costumes := [], sounds := [],
        blocks := [("b1",
          { opcode := "motion_goto_menu",
            fields := [("TO", [.vstr "S"])], inputs := [], mutation := none }),
         ("b2",
          { opcode := "sensing_touchingobjectmenu",
            fields := [("TOUCHINGOBJECTMENU", [.vstr "mouse-pointer"])],
            inputs := [], mutation := none })] },
      { name := "S", vars := [], lists := [], costumes := [], sounds := [],
        blocks := [] }] : List Target).map Target.name =
      (docSprites.map Target.name).take 1 ++
        (List.range (docSprites.length - 1)).map (fun _ => "S") ∧
    List.Forall₂ (C6TargetRel (spriteNamesMap docSprites (fun _ => "S")))
      docSprites
      [{ name := "Stage", vars := [], lists := [], costumes := [], sounds := [],
         blocks := [("b1",
           { opcode := "motion_goto_menu",
             fields := [("TO", [.vstr "S"])], inputs := [], mutation := none }),
          ("b2",
           { opcode := "sensing_touchingobjectmenu",
             fields := [("TOUCHINGOBJECTMENU", [.vstr "mouse-pointer"])],
             inputs := [], mutation := none })] },
       { name := "S", vars := [], lists := [], costumes := [], sounds := [],
         blocks := [] }] := by
  exact c6_theorem docSprites [("rename_sprites_to", PyVal.vstr "random_hex")]
    (fun _ => "S") _ rfl (by decide)


theorem popKey_none_notmem :
    ∀ (opts : Options) (n : String), (popKey opts n).1 = none →
    n ∉ opts.map Prod.fst := by
  intro opts
  induction opts with
  | nil => intro n _ hmem; simp at hmem
  | cons p rest ih =>
    intro n h hmem
    simp only [popKey] at h
    by_cases hp : p.1 = n
    · rw [if_pos hp] at h; cases h
    · rw [if_neg hp] at h
      simp only [] at h
      rcases List.mem_cons.mp hmem with h2 | h2
      · exact hp h2.symm
      · exact ih n h h2

theorem popKey_snd_eq_filter :
    ∀ (opts : Options) (n : String), (opts.map Prod.fst).Nodup →
    (popKey opts n).2 = opts.filter (fun p => p.1 != n) := by
  intro opts
  induction opts with
  | nil => intro n _; rfl
  | cons p rest ih =>
    intro n hnd
    simp only [List.map_cons, List.nodup_cons] at hnd
    simp only [popKey]
    by_cases hp : p.1 = n
    · rw [if_pos hp]
      simp only [List.filter_cons]
      have : (p.1 != n) = false := by simp [hp]
      rw [this]
      simp only [Bool.false_eq_true, if_false]
      symm
      rw [List.filter_eq_self]
      intro a ha
      simp only [bne_iff_ne, ne_eq]
      intro he
      exact hnd.1 (hp ▸ he ▸ List.mem_map_of_mem Prod.fst ha)
    · rw [if_neg hp]
      simp only [List.filter_cons]
      have : (p.1 != n) = true := by simp [hp]
      rw [this]
      simp only [if_true]
      rw [ih n hnd.2]

theorem popKey_keys_sublist :
    ∀ (opts : Options) (n : String),
    ((popKey opts n).2.map Prod.fst).Sublist (opts.map Prod.fst) := by
  intro opts
  induction opts with
  | nil => intro n; simp [popKey]
  | cons p rest ih =>
    intro n
    simp only [popKey]
    by_cases hp : p.1 = n
    · rw [if_pos hp]
      simp only [List.map_cons]
      exact (List.sublist_cons_self _ _)
    · rw [if_neg hp]
      simp only [List.map_cons]
      exact (ih n).cons₂ _

theorem dispatchAll_leftover (sups : Nat → Nat → String) :
    ∀ (names : List (String × PyType)) (targets : List Target) (opts : Options)
      (i : Nat) (r : List Target × Options),
    dispatchAll sups targets opts names i = .ok r →
    (opts.map Prod.fst).Nodup →
    r.2 = opts.filter (fun p => p.1 ∉ names.map Prod.fst) := by
  intro names
  induction names with
  | nil =>
    intro targets opts i r h _
    simp only [dispatchAll] at h
    cases h
    symm
    rw [List.filter_eq_self]
    intro a _
    simp
  | cons nt rest ih =>
    obtain ⟨n, ty⟩ := nt
    intro targets opts i r h hnd
    simp only [dispatchAll] at h
    cases hpop : (popKey opts n).1 with
    | none =>
      rw [hpop] at h
      simp only [] at h
      have hnot := popKey_none_notmem opts n hpop
      rw [ih targets opts (i + 1) r h hnd]
      refine List.filter_congr ?_
      intro a ha
      have hne : a.1 ≠ n := by
        intro he
        exact hnot (he ▸ List.mem_map_of_mem Prod.fst ha)
      refine decide_eq_decide.mpr ?_
      simp [List.mem_cons, hne]
    | some v =>
      rw [hpop] at h
      simp only [] at h
      have hnd2 : ((popKey opts n).2.map Prod.fst).Nodup :=
        hnd.sublist (popKey_keys_sublist opts n)
      have hfilter := popKey_snd_eq_filter opts n hnd
      have hcompose : ((popKey opts n).2.filter
            (fun p => p.1 ∉ rest.map Prod.fst)) =
          opts.filter (fun p => p.1 ∉ ((n, ty) :: rest).map Prod.fst) := by
        rw [hfilter, List.filter_filter]
        refine List.filter_congr ?_
        intro a _
        by_cases h1 : a.1 = n
        · simp [h1]
        · by_cases h2 : a.1 ∈ rest.map Prod.fst
          · simp [h1, h2]
          · simp [h1, h2]
      by_cases hty : isinstanceTy v ty = true
      · rw [if_pos hty] at h
        simp only [bind, Except.bind] at h
        split at h
        · cases h
        · rename_i t1 ht1
          rw [ih t1 (popKey opts n).2 (i + 1) r h hnd2]
          exact hcompose
      · rw [if_neg hty] at h
        rw [ih targets (popKey opts n).2 (i + 1) r h hnd2]
        exact hcompose

/-- C3 — the claim is FALSE on the code at a concrete input: a
recognized key bound to a wrong-typed value (`rename_sprites: 5`) is
popped by the walrus inside `and`, so the run completes with **zero**
warnings instead of one. -/
theorem c3_counterexample :
    obfuscateCore [] [("rename_sprites", PyVal.vint 5)] (fun _ _ => "") =
      .ok ([], []) ∧ ¬ (([] : List String) = ["rename_sprites"]) := by
  exact ⟨rfl, by decide⟩

/-- C3 (amended): every *unrecognized* top-level key yields exactly one
`UnknownOption` warning (the leftover keys, in order), while a
recognized key with a wrong-typed value is silently discarded — popped
but neither run nor warned about — and the run still completes: the
scenario run with a valid `rename_sprites` record plus `foo: 1` and a
wrong-typed `rename_lists` completes with exactly the warning `foo`. -/
theorem c3_theorem :
    (∀ (targets : List Target) (opts : Options) (sups : Nat → Nat → String)
       (t : List Target) (w : List String),
      obfuscateCore targets opts sups = .ok (t, w) →
      (opts.map Prod.fst).Nodup →
      w = (opts.filter (fun p => p.1 ∉ recognizedNames)).map Prod.fst) ∧
    obfuscateCore docSprites
      [("rename_lists", PyVal.vstr "oops"),
       ("rename_sprites", PyVal.vdict [("rename_sprites_to", PyVal.vstr "random_hex")]),
       ("foo", PyVal.vint 1)] (fun _ _ => "S") =
      .ok ([{ name := "Stage", vars := [], lists := [], costumes := [], sounds := [],
              blocks := [("b1",
                { opcode := "motion_goto_menu",
                  fields := [("TO", [.vstr "S"])], inputs := [], mutation := none }),
               ("b2",
                { opcode := "sensing_touchingobjectmenu",
                  fields := [("TOUCHINGOBJECTMENU", [.vstr "mouse-pointer"])],
                  inputs := [], mutation := none })] },
            { name := "S", vars := [], lists := [], costumes := [], sounds := [],
              blocks := [] }], ["foo"]) := by
  constructor
  · intro targets opts sups t w h hnd
    simp only [obfuscateCore, bind, Except.bind] at h
    split at h
    · cases h
    · rename_i r hr
      simp only [pure, Except.pure, Except.ok.injEq, Prod.mk.injEq] at h
      obtain ⟨ht, hw⟩ := h
      rw [← hw, dispatchAll_leftover sups optionNames targets opts 0 r hr hnd]
      rfl
  · rfl

/-- Witness for `c3_theorem` at a concrete record with an unrecognized
key beside a wrong-typed recognized key. -/
theorem c3_witness :
    (["foo"] : List String) =
      (([("rename_sprites", PyVal.vint 5), ("foo", PyVal.vint 1)] : Options).filter
        (fun p => p.1 ∉ recognizedNames)).map Prod.fst := by
  exact c3_theorem.1 [] [("rename_sprites", PyVal.vint 5), ("foo", PyVal.vint 1)]
    (fun _ _ => "") [] ["foo"] rfl (by decide)

end Obf
